import Mathlib

/-!
Verification of the snapshot-tester record/replay engine (package
`github.com/esse/snapshot-tester`) against its specification.

The development shallowly embeds the Go source:

* Dynamic `any` values that flow through HTTP bodies and database rows are
  modelled by the inductive type `V` (the sum null / bool / number / string /
  sequence / mapping / `*EncodedBody`, as in the design notes of the spec).
  JSON numbers are modelled as integers; none of the verified claims depends
  on non-integral numerics.
* Byte strings are identified with their UTF-8 text; `strBytes` recovers the
  byte sequence of a string.  Go maps are represented by association lists
  (one fixed enumeration order of the unordered Go map).
* `encoding/json` is modelled at the value-tree level by `goMarshal`
  (serialization, key-sorted like Go) and `jsonParse` (a fuel-based parser);
  `fmt.Sprintf("%v", ·)` by `goFormat`.
-/

namespace SnapshotTester

/-- Model of a Go `any` value as deserialized from / serialized to JSON, plus
the `*snapshot.EncodedBody` struct variant (fields `Data any`, `Encoding
string`) used by the body codec. -/
inductive V where
  | vnull : V
  | vbool : Bool → V
  | vnum : Int → V
  | vstr : String → V
  | varr : List V → V
  | vobj : List (String × V) → V
  | venc : V → String → V

open V

/-- Go `nil` test on an `any` value. -/
def V.isNull : V → Bool
  | vnull => true
  | _ => false

/-- Whether a value is a Go `map[string]any`. -/
def V.isObj : V → Bool
  | vobj _ => true
  | _ => false

/-! ### String helpers (kernel-reducible replacements for Go `strings`) -/

/-- `charsStart p l`: `l` starts with `p` (model of `strings.HasPrefix` on
rune lists; all content-type and key comparisons in the source are ASCII). -/
def charsStart : List Char → List Char → Bool
  | [], _ => true
  | _ :: _, [] => false
  | a :: as, b :: bs => a == b && charsStart as bs

/-- Model of Go `strings.HasPrefix s p`. -/
def strStarts (s p : String) : Bool := charsStart p.toList s.toList

/-- `charsSub p l`: `p` occurs as a contiguous run inside `l`. -/
def charsSub (pat : List Char) : List Char → Bool
  | [] => charsStart pat []
  | c :: cs => charsStart pat (c :: cs) || charsSub pat cs

/-- Model of Go `strings.Contains s pat`. -/
def strContainsSub (s pat : String) : Bool := charsSub pat.toList s.toList

/-- Model of Go `strings.HasSuffix s p`. -/
def strEndsW (s p : String) : Bool := charsStart p.toList.reverse s.toList.reverse

/-- ASCII lower-casing of a string (model of Go `strings.ToLower`; the source
only lower-cases content types and header names, which are ASCII). -/
def lowerStr (s : String) : String := String.mk (s.toList.map Char.toLower)

/-- Model of Go `strings.EqualFold` (simple case folding; ASCII suffices for
the `"Bearer "` scheme comparison it is used for). -/
def foldEq (a b : String) : Bool :=
  a.toList.map Char.toLower == b.toList.map Char.toLower

/-- Model of Go `strings.ReplaceAll s (string c) rep` for a single-character
pattern (the only form the source uses, in `quoteIdentifier`). -/
def replaceChar (s : String) (c : Char) (rep : String) : String :=
  String.mk ((s.toList.map fun x => if x = c then rep.toList else [x]).flatten)

/-! ### Association-list model of Go maps -/

/-- Go `m[k] = v` on a map represented as an association list: the new binding
shadows (removes) any previous binding of `k`. -/
def mapInsert (k : String) (v : α) (m : List (String × α)) : List (String × α) :=
  (k, v) :: m.filter (fun p => p.1 ≠ k)

/-- Lookup with default, as Go's `m[t]` read that yields the zero value for a
missing key. -/
def lookupD (m : List (String × List α)) (k : String) : List α :=
  (List.lookup k m).getD []

/-- Keys of an association list in first-occurrence order (model of the key
set of a Go map built by iterating two maps, as in `ComputeDiff`). -/
def keyUnion (a b : List String) : List String :=
  (a ++ b).foldr (fun k acc => if k ∈ acc then acc else k :: acc) []

/-! ### UTF-8 bytes -/

/-- UTF-8 encoding of one scalar value, as a list of byte values. -/
def utf8Bytes (c : Char) : List Nat :=
  let n := c.toNat
  if n < 0x80 then [n]
  else if n < 0x800 then [0xC0 + n / 64, 0x80 + n % 64]
  else if n < 0x10000 then [0xE0 + n / 4096, 0x80 + n / 64 % 64, 0x80 + n % 64]
  else [0xF0 + n / 262144, 0x80 + n / 4096 % 64, 0x80 + n / 64 % 64, 0x80 + n % 64]

/-- The UTF-8 byte string of a Go string. -/
def strBytes (s : String) : List Nat := (s.toList.map utf8Bytes).flatten

/-! ### Base64 (model of `encoding/base64.StdEncoding`) -/

/-- The standard base64 alphabet. -/
def b64Alphabet : List Char :=
  "ABCDEFGHIJKLMNOPQRSTUVWXYZabcdefghijklmnopqrstuvwxyz0123456789+/".toList

/-- One alphabet character for a 6-bit value. -/
def b64Char (n : Nat) : Char := (b64Alphabet.drop (n % 64)).headD 'A'

/-- Encode a byte list in standard base64 with padding
(`base64.StdEncoding.EncodeToString`). -/
def base64EncodeBytes : List Nat → List Char
  | b0 :: b1 :: b2 :: rest =>
      b64Char (b0 / 4) :: b64Char (b0 % 4 * 16 + b1 / 16) ::
      b64Char (b1 % 16 * 4 + b2 / 64) :: b64Char (b2 % 64) :: base64EncodeBytes rest
  | [b0, b1] =>
      [b64Char (b0 / 4), b64Char (b0 % 4 * 16 + b1 / 16), b64Char (b1 % 16 * 4), '=']
  | [b0] => [b64Char (b0 / 4), b64Char (b0 % 4 * 16), '=', '=']
  | [] => []

/-- `base64.StdEncoding.EncodeToString` on a byte list, as a string. -/
def base64Encode (bs : List Nat) : String := String.mk (base64EncodeBytes bs)

/-- Index of a character in the base64 alphabet. -/
def b64Index (c : Char) : Option Nat := b64Alphabet.indexOf? c

/-- Decode one base64 quantum (4 symbols, possibly padded). -/
def b64Quantum : List Char → Option (List Nat)
  | [a, b, '=', '='] => do
      let x ← b64Index a
      let y ← b64Index b
      if y % 16 = 0 then pure [x * 4 + y / 16] else none
  | [a, b, c, '='] => do
      let x ← b64Index a
      let y ← b64Index b
      let z ← b64Index c
      if z % 4 = 0 then pure [x * 4 + y / 16, y % 16 * 16 + z / 4] else none
  | [a, b, c, d] => do
      let x ← b64Index a
      let y ← b64Index b
      let z ← b64Index c
      let w ← b64Index d
      pure [x * 4 + y / 16, y % 16 * 16 + z / 4, z % 4 * 64 + w]
  | _ => none

/-- Decode a base64 character list in 4-symbol groups. -/
def b64Groups : List Char → Option (List Nat)
  | [] => some []
  | a :: b :: c :: d :: rest => do
      let g ← b64Quantum [a, b, c, d]
      let r ← b64Groups rest
      if d ≠ '=' ∨ rest = [] then pure (g ++ r) else none
  | _ => none

/-- Model of `base64.StdEncoding.DecodeString` (Go skips CR and LF, then
decodes strict padded quanta; malformed input yields an error). -/
def base64Decode (s : String) : Except String (List Nat) :=
  match b64Groups (s.toList.filter fun c => c ≠ '\r' ∧ c ≠ '\n') with
  | some bs => .ok bs
  | none => .error "illegal base64 data at input byte"

/-! ### Go `%v` formatting (`fmt.Sprintf`), used by the differ -/

/-- Byte-wise (equivalently code-point-wise, since UTF-8 preserves order)
string comparison used when Go sorts map keys. -/
def charsLe : List Char → List Char → Bool
  | [], _ => true
  | _ :: _, [] => false
  | a :: as, b :: bs => if a = b then charsLe as bs else decide (a.toNat < b.toNat)

/-- Go `<` on strings, as a Boolean. -/
def strLeB (a b : String) : Bool := charsLe a.toList b.toList

/-- Insert into a key-sorted list of rendered entries (stable). -/
def insSorted (p : String × String) : List (String × String) → List (String × String)
  | [] => [p]
  | q :: rest => if strLeB p.1 q.1 then p :: q :: rest else q :: insSorted p rest

/-- Sort rendered map entries by key, as Go does before printing a map. -/
def sortPairs (l : List (String × String)) : List (String × String) :=
  l.foldr insSorted []

/-- Join rendered entries with single spaces. -/
def joinSp (l : List (String × String)) : String :=
  String.intercalate " " (l.map Prod.snd)

/-- Join serialized object members with commas. -/
def joinComma (l : List (String × String)) : String :=
  String.intercalate "," (l.map Prod.snd)

mutual

/-- Model of `fmt.Sprintf("%v", x)` on a dynamic value: `<nil>` for nil,
plain text for strings, space-separated brackets for slices, `map[k:v ...]`
with sorted keys for maps and `&{data enc}` for the `*EncodedBody` pointer. -/
def goFormat : V → String
  | vnull => "<nil>"
  | vbool b => if b then "true" else "false"
  | vnum n => toString n
  | vstr s => s
  | varr l => "[" ++ goFormatList l ++ "]"
  | vobj m => "map[" ++ joinSp (sortPairs (goFormatEntries m)) ++ "]"
  | venc d e => "&\x7b" ++ goFormat d ++ " " ++ e ++ "\x7d"

/-- Space-separated `%v` renderings of slice elements. -/
def goFormatList : List V → String
  | [] => ""
  | [x] => goFormat x
  | x :: xs => goFormat x ++ " " ++ goFormatList xs

/-- `%v` renderings of map entries, keyed for sorting. -/
def goFormatEntries : List (String × V) → List (String × String)
  | [] => []
  | (k, v) :: rest => (k, k ++ ":" ++ goFormat v) :: goFormatEntries rest

end

/-! ### JSON serialization (model of `encoding/json.Marshal`) -/

/-- Hexadecimal digit for a 4-bit value. -/
def hexDigit (n : Nat) : Char := ("0123456789abcdef".toList.drop (n % 16)).headD '0'

/-- JSON string escaping as Go's encoder performs it (quote, backslash and
control characters escaped; `<`, `>`, `&`, U+2028 and U+2029 escaped because
`json.Marshal` HTML-escapes by default). -/
def jsonEscapeChar (c : Char) : List Char :=
  if c = '"' then ['\\', '"']
  else if c = '\\' then ['\\', '\\']
  else if c = '\n' then ['\\', 'n']
  else if c = '\r' then ['\\', 'r']
  else if c = '\t' then ['\\', 't']
  else if c.toNat < 0x20 ∨ c = '<' ∨ c = '>' ∨ c = '&' ∨ c.toNat = 0x2028 ∨ c.toNat = 0x2029 then
    ['\\', 'u', hexDigit (c.toNat / 4096), hexDigit (c.toNat / 256),
     hexDigit (c.toNat / 16), hexDigit c.toNat]
  else [c]

/-- A JSON string literal for `s`. -/
def jsonQuote (s : String) : String :=
  "\"" ++ String.mk ((s.toList.map jsonEscapeChar).flatten) ++ "\""

mutual

/-- Model of `encoding/json.Marshal` on a dynamic value: compact JSON text
with map keys sorted (as Go serializes maps); an `*EncodedBody` marshals via
its struct tags `data` / `encoding,omitempty`. -/
def goMarshal : V → String
  | vnull => "null"
  | vbool b => if b then "true" else "false"
  | vnum n => toString n
  | vstr s => jsonQuote s
  | varr l => "[" ++ goMarshalList l ++ "]"
  | vobj m => "\x7b" ++ joinComma (sortPairs (goMarshalEntries m)) ++ "\x7d"
  | venc d e =>
      if e = "" then "\x7b\"data\":" ++ goMarshal d ++ "\x7d"
      else "\x7b\"data\":" ++ goMarshal d ++ ",\"encoding\":" ++ jsonQuote e ++ "\x7d"

/-- Comma-separated serializations of array elements. -/
def goMarshalList : List V → String
  | [] => ""
  | [x] => goMarshal x
  | x :: xs => goMarshal x ++ "," ++ goMarshalList xs

/-- Serialized object members, keyed for sorting. -/
def goMarshalEntries : List (String × V) → List (String × String)
  | [] => []
  | (k, v) :: rest => (k, jsonQuote k ++ ":" ++ goMarshal v) :: goMarshalEntries rest

end

/-! ### JSON parsing (model of `encoding/json.Unmarshal` into `any`) -/

/-- Skip JSON whitespace. -/
def skipWs (cs : List Char) : List Char :=
  cs.dropWhile fun c => c = ' ' ∨ c = '\n' ∨ c = '\t' ∨ c = '\r'

/-- Value of a hexadecimal digit. -/
def hexVal (c : Char) : Option Nat :=
  if c.isDigit then some (c.toNat - 48)
  else if 'a' ≤ c ∧ c ≤ 'f' then some (c.toNat - 87)
  else if 'A' ≤ c ∧ c ≤ 'F' then some (c.toNat - 55)
  else none

/-- Parse the body of a JSON string literal after the opening quote. -/
def parseJStr (fuel : Nat) (cs : List Char) : Option (List Char × List Char) :=
  match fuel, cs with
  | 0, _ => none
  | _, [] => none
  | fuel + 1, c :: rest =>
    if c = '"' then some ([], rest)
    else if c = '\\' then
      match rest with
      | 'n' :: r => (parseJStr fuel r).map fun p => ('\n' :: p.1, p.2)
      | 't' :: r => (parseJStr fuel r).map fun p => ('\t' :: p.1, p.2)
      | 'r' :: r => (parseJStr fuel r).map fun p => ('\r' :: p.1, p.2)
      | 'b' :: r => (parseJStr fuel r).map fun p => (Char.ofNat 8 :: p.1, p.2)
      | 'f' :: r => (parseJStr fuel r).map fun p => (Char.ofNat 12 :: p.1, p.2)
      | '"' :: r => (parseJStr fuel r).map fun p => ('"' :: p.1, p.2)
      | '\\' :: r => (parseJStr fuel r).map fun p => ('\\' :: p.1, p.2)
      | '/' :: r => (parseJStr fuel r).map fun p => ('/' :: p.1, p.2)
      | 'u' :: h1 :: h2 :: h3 :: h4 :: r => do
          let a ← hexVal h1
          let b ← hexVal h2
          let c3 ← hexVal h3
          let d ← hexVal h4
          let p ← parseJStr fuel r
          pure (Char.ofNat (a * 4096 + b * 256 + c3 * 16 + d) :: p.1, p.2)
      | _ => none
    else (parseJStr fuel rest).map fun p => (c :: p.1, p.2)

/-- Integer value of a digit run. -/
def digitsToNat (ds : List Char) : Nat :=
  ds.foldl (fun a c => a * 10 + (c.toNat - 48)) 0

/-- Parse a JSON number.  The model restricts numbers to integers (a fraction
or exponent makes the parse fail); the verified claims never feed non-integer
numerics through the codec. -/
def parseJNum (cs : List Char) : Option (Int × List Char) :=
  let (neg, cs') := match cs with
    | '-' :: r => (true, r)
    | _ => (false, cs)
  let ds := cs'.takeWhile Char.isDigit
  let rest := cs'.dropWhile Char.isDigit
  if ds = [] then none
  else match rest with
    | '.' :: _ => none
    | 'e' :: _ => none
    | 'E' :: _ => none
    | _ => some (if neg then -(digitsToNat ds : Int) else (digitsToNat ds : Int), rest)

mutual

/-- Parse one JSON value. -/
def parseJVal (fuel : Nat) (cs : List Char) : Option (V × List Char) :=
  match fuel with
  | 0 => none
  | fuel + 1 =>
    match skipWs cs with
    | 'n' :: 'u' :: 'l' :: 'l' :: rest => some (vnull, rest)
    | 't' :: 'r' :: 'u' :: 'e' :: rest => some (vbool true, rest)
    | 'f' :: 'a' :: 'l' :: 's' :: 'e' :: rest => some (vbool false, rest)
    | '"' :: rest => (parseJStr fuel rest).map fun p => (vstr (String.mk p.1), p.2)
    | '[' :: rest =>
      (match skipWs rest with
       | ']' :: r => some (varr [], r)
       | other => (parseJElems fuel other).map fun p => (varr p.1, p.2))
    | '\x7b' :: rest =>
      (match skipWs rest with
       | '\x7d' :: r => some (vobj [], r)
       | other => (parseJMembers fuel other).map fun p => (vobj p.1, p.2))
    | other => (parseJNum other).map fun p => (vnum p.1, p.2)

/-- Parse comma-separated array elements up to the closing bracket. -/
def parseJElems (fuel : Nat) (cs : List Char) : Option (List V × List Char) :=
  match fuel with
  | 0 => none
  | fuel + 1 => do
    let (v, rest) ← parseJVal fuel cs
    match skipWs rest with
    | ',' :: r => (parseJElems fuel r).map fun p => (v :: p.1, p.2)
    | ']' :: r => some ([v], r)
    | _ => none

/-- Parse comma-separated object members up to the closing brace. -/
def parseJMembers (fuel : Nat) (cs : List Char) : Option (List (String × V) × List Char) :=
  match fuel with
  | 0 => none
  | fuel + 1 =>
    match skipWs cs with
    | '"' :: rest => do
      let (k, r1) ← parseJStr fuel rest
      match skipWs r1 with
      | ':' :: r2 => do
        let (v, r3) ← parseJVal fuel r2
        match skipWs r3 with
        | ',' :: r4 => (parseJMembers fuel r4).map fun p => ((String.mk k, v) :: p.1, p.2)
        | '\x7d' :: r4 => some ([(String.mk k, v)], r4)
        | _ => none
      | _ => none
    | _ => none

end

/-- Model of `json.Unmarshal(raw, &parsed)` into a dynamic value: the whole
input must be one JSON value (up to whitespace). -/
def jsonParse (raw : String) : Option V :=
  match parseJVal (raw.length + 1) raw.toList with
  | some (v, rest) => if skipWs rest = [] then some v else none
  | none => none

/-! ### Body codec (`internal/snapshot`, `ParseBody` / `DecodeBody`) -/

/-- The binary content-type table of `isBinaryContentType`. -/
def binaryTypes : List String :=
  ["application/grpc", "application/grpc-web", "application/grpc-web+proto",
   "application/protobuf", "application/x-protobuf", "application/x-google-protobuf",
   "application/msgpack", "application/x-msgpack", "application/octet-stream",
   "application/cbor", "application/thrift", "application/avro",
   "application/flatbuffers"]

/-- `isBinaryContentType` from the source: any of the listed prefixes. -/
def isBinaryContentType (ct : String) : Bool :=
  binaryTypes.any fun bt => strStarts ct bt

/-- `isJSONContentType` from the source. -/
def isJSONContentType (ct : String) : Bool :=
  strContainsSub ct "json" || strContainsSub ct "json-rpc"

/-- `isTextContentType` from the source. -/
def isTextContentType (ct : String) : Bool :=
  strStarts ct "text/" || strContainsSub ct "xml" || strContainsSub ct "html" ||
    strContainsSub ct "form-urlencoded"

/-- The fall-through tail of `ParseBody` for non-JSON, non-binary content:
text types are stored as the Go string; unknown types retry a JSON parse,
then keep the text unless it contains U+FFFD (the replacement rune Go's
range-over-string produces for invalid UTF-8), in which case the bytes are
stored as a base64 record. -/
def parseBodyTail (raw : String) (ct : String) : V :=
  if isTextContentType ct then vstr raw
  else
    match jsonParse raw with
    | some parsed => parsed
    | none =>
      if raw.toList.any (fun r => r.toNat = 0xFFFD) then
        venc (vstr (base64Encode (strBytes raw))) "base64"
      else vstr raw

/-- `ParseBody` from the source: interpret raw bytes based on content type
(binary → base64 record, JSON-ish → parsed value with fall-through, text →
string, unknown → JSON retry / string / base64 record). -/
def ParseBody (raw : String) (contentType : String) : V :=
  if raw = "" then vnull
  else
    let ct := lowerStr contentType
    if isBinaryContentType ct then
      venc (vstr (base64Encode (strBytes raw))) "base64"
    else if isJSONContentType ct || ct = "" then
      match jsonParse raw with
      | some parsed => parsed
      | none => parseBodyTail raw ct
    else parseBodyTail raw ct

/-- `DecodeBody` from the source: reverse a stored body into transport bytes.
A `\x7bdata, encoding\x7d` map or an `*EncodedBody` with encoding `base64`
base64-decodes its data, with encoding `text` yields the string's bytes;
everything else re-serializes as JSON (`json.Marshal` cannot fail on the
values of this model, so the codec-error arm of the source is not
representable). -/
def DecodeBody (body : V) : Except String (List Nat) :=
  match body with
  | vnull => .ok []
  | vobj m =>
    (match List.lookup "encoding" m with
     | some enc =>
       let data := match List.lookup "data" m with
         | some (vstr s) => s
         | _ => ""
       (match enc with
        | vstr "base64" => base64Decode data
        | vstr "text" => .ok (strBytes data)
        | _ => .ok (strBytes (goMarshal (vobj m))))
     | none => .ok (strBytes (goMarshal (vobj m))))
  | venc d e =>
    let data := match d with
      | vstr s => s
      | _ => ""
    (match e with
     | "base64" => base64Decode data
     | "text" => .ok (strBytes data)
     | _ => .ok (strBytes (goMarshal (venc d e))))
  | other => .ok (strBytes (goMarshal other))

/-! ### Snapshot data model (`internal/snapshot`) -/

/-- A database row: `map[string]any` of column values. -/
abbrev Row : Type := List (String × V)

/-- A database state: `map[string][]map[string]any`. -/
abbrev DBState : Type := List (String × List Row)

/-- `snapshot.Request`: the incoming HTTP request. -/
structure Request where
  method : String
  url : String
  headers : List (String × String)
  body : V

/-- `snapshot.Response`: the HTTP response from the service. -/
structure Response where
  status : Int
  headers : List (String × String)
  body : V

/-- `snapshot.OutgoingRequest`: an outgoing HTTP call made by the service. -/
structure OutgoingRequest where
  method : String
  url : String
  headers : List (String × String)
  body : V
  response : Option Response

/-- `snapshot.ModifiedRow`: a row that was changed. -/
structure ModifiedRow where
  before : Row
  after : Row

/-- `snapshot.TableDiff`: changes to a single database table. -/
structure TableDiff where
  added : List Row
  removed : List Row
  modified : List ModifiedRow

/-- `snapshot.Snapshot`: a complete recording of one service interaction.
`timestamp` is the RFC 3339 text of the Go `time.Time`. -/
structure Snapshot where
  id : String
  timestamp : String
  service : String
  tags : List String
  dbStateBefore : DBState
  request : Request
  outgoingRequests : List OutgoingRequest
  response : Response
  dbStateAfter : DBState
  dbDiff : List (String × TableDiff)

/-! ### Store serialization (`Store.Save` / `Store.Load`, JSON format)

`Store.marshal` turns a `Snapshot` into JSON text via `encoding/json` struct
tags, and `Store.Load` parses it back into a fresh `Snapshot`.  The model
works at the JSON value-tree level (the text layer is Go's `encoding/json`):
`marshalSnapshot` builds the tree the struct tags dictate — including every
`omitempty` — and `unmarshalSnapshot` decodes a tree into the struct,
zero-valuing absent fields exactly as `json.Unmarshal` does. -/

/-- An `omitempty` field: dropped when its emptiness condition holds. -/
def optF (name : String) (omitIt : Bool) (v : V) : List (String × V) :=
  if omitIt then [] else [(name, v)]

mutual

/-- How `encoding/json` serializes a dynamic body value, at tree level: JSON
values map to themselves and an `*EncodedBody` marshals to its
`\x7bdata, encoding\x7d` object (tags `data` and `encoding,omitempty`). -/
def marshalV : V → V
  | vnull => vnull
  | vbool b => vbool b
  | vnum n => vnum n
  | vstr s => vstr s
  | varr l => varr (marshalVList l)
  | vobj m => vobj (marshalVEntries m)
  | venc d e => vobj ([("data", marshalV d)] ++ optF "encoding" (e = "") (vstr e))

/-- `marshalV` on array elements. -/
def marshalVList : List V → List V
  | [] => []
  | x :: xs => marshalV x :: marshalVList xs

/-- `marshalV` on object entries. -/
def marshalVEntries : List (String × V) → List (String × V)
  | [] => []
  | (k, v) :: rest => (k, marshalV v) :: marshalVEntries rest

end

mutual

/-- A value already in JSON normal form: what `json.Unmarshal` can produce
(no `*EncodedBody` struct values). -/
def isNF : V → Bool
  | vnull => true
  | vbool _ => true
  | vnum _ => true
  | vstr _ => true
  | varr l => isNFList l
  | vobj m => isNFEntries m
  | venc _ _ => false

/-- `isNF` on array elements. -/
def isNFList : List V → Bool
  | [] => true
  | x :: xs => isNF x && isNFList xs

/-- `isNF` on object entries. -/
def isNFEntries : List (String × V) → Bool
  | [] => true
  | (_, v) :: rest => isNF v && isNFEntries rest

end

/-- Serialize a header map (`map[string]string`). -/
def marshalHeaders (h : List (String × String)) : V :=
  vobj (h.map fun p => (p.1, vstr p.2))

/-- Serialize one row (`map[string]any`). -/
def marshalRow (r : Row) : V := vobj (r.map fun p => (p.1, marshalV p.2))

/-- Serialize a table's rows. -/
def marshalRows (rs : List Row) : V := varr (rs.map marshalRow)

/-- Serialize a DB state (`map[string][]map[string]any`). -/
def marshalDBState (st : DBState) : V :=
  vobj (st.map fun p => (p.1, marshalRows p.2))

/-- Serialize a `Request` per its struct tags
(`method`, `url`, `headers,omitempty`, `body,omitempty`). -/
def marshalRequest (r : Request) : V :=
  vobj ([("method", vstr r.method), ("url", vstr r.url)] ++
    optF "headers" r.headers.isEmpty (marshalHeaders r.headers) ++
    optF "body" r.body.isNull (marshalV r.body))

/-- Serialize a `Response` per its struct tags
(`status`, `headers,omitempty`, `body,omitempty`). -/
def marshalResponse (r : Response) : V :=
  vobj ([("status", vnum r.status)] ++
    optF "headers" r.headers.isEmpty (marshalHeaders r.headers) ++
    optF "body" r.body.isNull (marshalV r.body))

/-- Serialize an `OutgoingRequest` per its struct tags (`method`, `url`,
`headers,omitempty`, `body,omitempty`, `response,omitempty`). -/
def marshalOutgoing (o : OutgoingRequest) : V :=
  vobj ([("method", vstr o.method), ("url", vstr o.url)] ++
    optF "headers" o.headers.isEmpty (marshalHeaders o.headers) ++
    optF "body" o.body.isNull (marshalV o.body) ++
    (match o.response with
     | none => []
     | some resp => [("response", marshalResponse resp)]))

/-- Serialize a `ModifiedRow` (`before`, `after`). -/
def marshalModifiedRow (m : ModifiedRow) : V :=
  vobj [("before", marshalRow m.before), ("after", marshalRow m.after)]

/-- Serialize a `TableDiff` (`added`, `removed`, `modified`; no omitempty). -/
def marshalTableDiff (d : TableDiff) : V :=
  vobj [("added", varr (d.added.map marshalRow)),
        ("removed", varr (d.removed.map marshalRow)),
        ("modified", varr (d.modified.map marshalModifiedRow))]

/-- Serialize the `db_diff` map. -/
def marshalDBDiff (l : List (String × TableDiff)) : V :=
  vobj (l.map fun p => (p.1, marshalTableDiff p.2))

/-- The JSON tree `Store.marshal` produces for a snapshot (struct field order;
`tags` and `outgoing_requests` are `omitempty`). -/
def marshalSnapshot (s : Snapshot) : V :=
  vobj ([("id", vstr s.id), ("timestamp", vstr s.timestamp),
         ("service", vstr s.service)] ++
    optF "tags" s.tags.isEmpty (varr (s.tags.map vstr)) ++
    [("db_state_before", marshalDBState s.dbStateBefore),
     ("request", marshalRequest s.request)] ++
    optF "outgoing_requests" s.outgoingRequests.isEmpty
      (varr (s.outgoingRequests.map marshalOutgoing)) ++
    [("response", marshalResponse s.response),
     ("db_state_after", marshalDBState s.dbStateAfter),
     ("db_diff", marshalDBDiff s.dbDiff)])

/-- Field access on a decoded JSON object. -/
def vget (v : V) (k : String) : Option V :=
  match v with
  | vobj m => List.lookup k m
  | _ => none

/-- `Option`-valued map over a list by plain recursion (the decoding loops of
`encoding/json`, which fail on the first ill-typed element). -/
def optMapM (f : α → Option β) : List α → Option (List β)
  | [] => some []
  | x :: xs => do
    let y ← f x
    let ys ← optMapM f xs
    pure (y :: ys)

/-- Decode a string field: absent or JSON `null` leaves the zero value. -/
def decodeStr : Option V → Option String
  | none => some ""
  | some vnull => some ""
  | some (vstr s) => some s
  | some _ => none

/-- Decode an int field: absent or JSON `null` leaves the zero value. -/
def decodeInt : Option V → Option Int
  | none => some 0
  | some vnull => some 0
  | some (vnum n) => some n
  | some _ => none

/-- Decode a `[]string` field (the `tags`). -/
def decodeStrList : Option V → Option (List String)
  | none => some []
  | some vnull => some []
  | some (varr l) => optMapM (fun x => match x with
      | vstr s => some s
      | _ => none) l
  | some _ => none

/-- Decode a `map[string]string` field (headers). -/
def decodeHeaders : Option V → Option (List (String × String))
  | none => some []
  | some vnull => some []
  | some (vobj m) => optMapM (fun p => match p.2 with
      | vstr s => some (p.1, s)
      | _ => none) m
  | some _ => none

/-- Decode an `any` body field: the JSON tree itself; absent means `nil`. -/
def decodeBodyF : Option V → V
  | none => vnull
  | some v => v

/-- Decode one row (`map[string]any`; JSON `null` gives a nil map). -/
def decodeRow : V → Option Row
  | vnull => some []
  | vobj m => some m
  | _ => none

/-- Decode a `[]map[string]any` rows field. -/
def decodeRows : V → Option (List Row)
  | vnull => some []
  | varr l => optMapM decodeRow l
  | _ => none

/-- Decode a DB-state field. -/
def decodeDBState : Option V → Option DBState
  | none => some []
  | some vnull => some []
  | some (vobj m) => optMapM (fun p => (decodeRows p.2).map fun rs => (p.1, rs)) m
  | some _ => none

/-- Decode a `Request` value. -/
def decodeRequest : Option V → Option Request
  | none => some ⟨"", "", [], vnull⟩
  | some vnull => some ⟨"", "", [], vnull⟩
  | some (vobj m) => do
    let method ← decodeStr (List.lookup "method" m)
    let url ← decodeStr (List.lookup "url" m)
    let headers ← decodeHeaders (List.lookup "headers" m)
    pure ⟨method, url, headers, decodeBodyF (List.lookup "body" m)⟩
  | some _ => none

/-- Decode a `Response` value. -/
def decodeResponse : Option V → Option Response
  | none => some ⟨0, [], vnull⟩
  | some vnull => some ⟨0, [], vnull⟩
  | some (vobj m) => do
    let status ← decodeInt (List.lookup "status" m)
    let headers ← decodeHeaders (List.lookup "headers" m)
    pure ⟨status, headers, decodeBodyF (List.lookup "body" m)⟩
  | some _ => none

/-- Decode one `OutgoingRequest` (its `response` is a nil-able pointer). -/
def decodeOutgoing : V → Option OutgoingRequest
  | vnull => some ⟨"", "", [], vnull, none⟩
  | vobj m => do
    let method ← decodeStr (List.lookup "method" m)
    let url ← decodeStr (List.lookup "url" m)
    let headers ← decodeHeaders (List.lookup "headers" m)
    let response ← match List.lookup "response" m with
      | none => pure none
      | some vnull => pure none
      | some v => (decodeResponse (some v)).map some
    pure ⟨method, url, headers, decodeBodyF (List.lookup "body" m), response⟩
  | _ => none

/-- Decode the `outgoing_requests` field. -/
def decodeOutgoingList : Option V → Option (List OutgoingRequest)
  | none => some []
  | some vnull => some []
  | some (varr l) => optMapM decodeOutgoing l
  | some _ => none

/-- Decode a rows field of a `TableDiff` (absent gives the zero nil slice). -/
def decodeRowsF : Option V → Option (List Row)
  | none => some []
  | some v => decodeRows v

/-- Decode a `ModifiedRow`. -/
def decodeModifiedRow : V → Option ModifiedRow
  | vnull => some ⟨[], []⟩
  | vobj m => do
    let b ← match List.lookup "before" m with
      | none => pure ([] : Row)
      | some v => decodeRow v
    let a ← match List.lookup "after" m with
      | none => pure ([] : Row)
      | some v => decodeRow v
    pure ⟨b, a⟩
  | _ => none

/-- Decode a `TableDiff`. -/
def decodeTableDiff : V → Option TableDiff
  | vnull => some ⟨[], [], []⟩
  | vobj m => do
    let added ← decodeRowsF (List.lookup "added" m)
    let removed ← decodeRowsF (List.lookup "removed" m)
    let modified ← match List.lookup "modified" m with
      | none => pure ([] : List ModifiedRow)
      | some vnull => pure ([] : List ModifiedRow)
      | some (varr l) => optMapM decodeModifiedRow l
      | some _ => none
    pure ⟨added, removed, modified⟩
  | _ => none

/-- Decode the `db_diff` field. -/
def decodeDBDiff : Option V → Option (List (String × TableDiff))
  | none => some []
  | some vnull => some []
  | some (vobj m) => optMapM (fun p => (decodeTableDiff p.2).map fun d => (p.1, d)) m
  | some _ => none

/-- Model of `Store.Load`'s `json.Unmarshal(data, snap)` at tree level:
decode each tagged field of `snapshot.Snapshot`, zero-valuing absent ones. -/
def unmarshalSnapshot (v : V) : Option Snapshot :=
  match v with
  | vobj _ => do
    let id ← decodeStr (vget v "id")
    let timestamp ← decodeStr (vget v "timestamp")
    let service ← decodeStr (vget v "service")
    let tags ← decodeStrList (vget v "tags")
    let dbStateBefore ← decodeDBState (vget v "db_state_before")
    let request ← decodeRequest (vget v "request")
    let outgoingRequests ← decodeOutgoingList (vget v "outgoing_requests")
    let response ← decodeResponse (vget v "response")
    let dbStateAfter ← decodeDBState (vget v "db_state_after")
    let dbDiff ← decodeDBDiff (vget v "db_diff")
    pure ⟨id, timestamp, service, tags, dbStateBefore, request, outgoingRequests,
          response, dbStateAfter, dbDiff⟩
  | _ => none

/-! ### Database diff (`internal/db/diff.go`) -/

/-- The key under which `indexByID` files a row: `fmt.Sprintf("%v", row["id"])`
(`vnull` stands for the missing-column case, which `indexByID` rules out). -/
def idKeyOf (r : Row) : String := goFormat ((List.lookup "id" r).getD vnull)

/-- `indexByID` from the source: index rows by their `id` column, or `nil`
when some row has no `id`. -/
def indexByID (rows : List Row) : Option (List (String × Row)) :=
  rows.foldlM (fun idx r =>
    match List.lookup "id" r with
    | some idv => some (mapInsert (goFormat idv) r idx)
    | none => none) []

/-- `rowsEqual` from the source: same column count and `%v`-equal values
columnwise. -/
def rowsEqual (a b : Row) : Bool :=
  a.length == b.length && a.all fun p =>
    match List.lookup p.1 b with
    | some bv => goFormat p.2 == goFormat bv
    | none => false

/-- `hashRow` from the source hex-encodes `sha256(json.Marshal(row))`; the
model uses the serialized text itself, the injective stand-in for the
collision-free hash. -/
def hashRow (r : Row) : String := goMarshal (vobj r)

/-- `diffTable` from the source: id-keyed matching when every row on both
sides carries `id`, hash-set matching otherwise (the latter produces no
`modified` entries). -/
def diffTable (before after : List Row) : TableDiff :=
  match indexByID before, indexByID after with
  | some bById, some aById =>
    { added := aById.filterMap fun p =>
        if (List.lookup p.1 bById).isSome then none else some p.2
      removed := bById.filterMap fun p =>
        if (List.lookup p.1 aById).isSome then none else some p.2
      modified := bById.filterMap fun p =>
        match List.lookup p.1 aById with
        | some ar => if rowsEqual p.2 ar then none else some ⟨p.2, ar⟩
        | none => none }
  | _, _ =>
    let bByHash := before.foldl (fun m r => mapInsert (hashRow r) r m) []
    let aByHash := after.foldl (fun m r => mapInsert (hashRow r) r m) []
    { added := aByHash.filterMap fun p =>
        if (List.lookup p.1 bByHash).isSome then none else some p.2
      removed := bByHash.filterMap fun p =>
        if (List.lookup p.1 aByHash).isSome then none else some p.2
      modified := [] }

/-- `ComputeDiff` from the source: diff every table present in either state
(a missing table contributes its zero value, the empty row list). -/
def ComputeDiff (before after : DBState) : List (String × TableDiff) :=
  (keyUnion (before.map Prod.fst) (after.map Prod.fst)).map fun t =>
    (t, diffTable (lookupD before t) (lookupD after t))

/-- The row identity the differ uses: the formatted `id` column in id-keyed
mode, the structural hash otherwise. -/
def rowIdent (idMode : Bool) (r : Row) : String :=
  if idMode then idKeyOf r else hashRow r

/-! ### Mock server (`internal/mock/server.go`) -/

/-- `mock.RecordedCall`: an intercepted call. -/
structure RecordedCall where
  method : String
  url : String
  headers : List (String × String)
  body : V
  response : Option Response

/-- `requestKey` from the source. -/
def requestKey (method url : String) : String := method ++ ":" ++ url

/-- `NewServer` from the source: load expectations keyed by method + URL. -/
def NewServer (outgoing : List OutgoingRequest) : List (String × OutgoingRequest) :=
  outgoing.foldl (fun m o => mapInsert (requestKey o.method o.url) o m) []

/-- The three matching strategies of `handleRequest`, in order: exact
method + full URL, method + path, then the first expectation whose key starts
with `method:` and ends with the path. -/
def findExpectation (exps : List (String × OutgoingRequest))
    (method urlStr urlPath : String) : Option OutgoingRequest :=
  match List.lookup (requestKey method urlStr) exps with
  | some e => some e
  | none =>
    match List.lookup (requestKey method urlPath) exps with
    | some e => some e
    | none =>
      (exps.find? fun p =>
        strStarts p.1 (method ++ ":") && strEndsW p.1 urlPath).map Prod.snd

/-- What the mock handler writes back and records. -/
structure MockResult where
  status : Int
  body : String
  calls : List RecordedCall

/-- The miss payload the source writes
(`\x7b"error": "no mock expectation matched"\x7d`). -/
def mockMissBody : String := "\x7b\"error\": \"no mock expectation matched\"\x7d"

/-- `Server.handleRequest` from the source, for a successfully read request:
parse the body as JSON falling back to the raw string, look up an
expectation, and either replay its recorded response (JSON-serialized) or
answer `502 Bad Gateway` with the miss payload; the call is recorded in both
branches. -/
def handleRequest (exps : List (String × OutgoingRequest))
    (calls : List RecordedCall) (method urlStr urlPath : String)
    (headers : List (String × String)) (rawBody : String) : MockResult :=
  let body := if rawBody = "" then vnull else (jsonParse rawBody).getD (vstr rawBody)
  let call : RecordedCall := ⟨method, urlStr, headers, body, none⟩
  match findExpectation exps method urlStr urlPath with
  | some exp =>
    match exp.response with
    | some resp =>
      ⟨resp.status, if resp.body.isNull then "" else goMarshal resp.body,
       calls ++ [{ call with response := some resp }]⟩
    | none => ⟨502, mockMissBody, calls ++ [call]⟩
  | none => ⟨502, mockMissBody, calls ++ [call]⟩

/-! ### Authentication middleware (`Recorder.withAuth`) -/

/-- Outcome of the auth middleware on one request: an immediate rejection
(with the `WWW-Authenticate` header it sets, if any) or forwarding to the
next handler with the given header map. -/
inductive AuthResult where
  | reject (status : Int) (wwwAuthenticate : Option String)
  | forward (headers : List (String × String))

/-- `http.Header.Get`: first value or empty string. -/
def headerGet (headers : List (String × String)) (k : String) : String :=
  (List.lookup k headers).getD ""

/-- `http.Header.Del`: remove the key. -/
def headerDel (headers : List (String × String)) (k : String) : List (String × String) :=
  headers.filter fun p => p.1 ≠ k

/-- Go's `auth[:7]`, on the rune-list model of strings. -/
def strTake (s : String) (n : Nat) : String := String.mk (s.toList.take n)

/-- Go's `auth[7:]`, on the rune-list model of strings. -/
def strDrop (s : String) (n : Nat) : String := String.mk (s.toList.drop n)

/-- `Recorder.withAuth` from the source (`recorder.go`), as the decision it
takes on one request's headers when a token is configured: missing header →
401 with `WWW-Authenticate`, non-Bearer scheme → 401, wrong token → 403,
correct token → forward with the `Authorization` header deleted. -/
def withAuth (token : String) (headers : List (String × String)) : AuthResult :=
  let auth := headerGet headers "Authorization"
  if auth = "" then
    .reject 401 (some "Bearer realm=\"snapshot-tester\"")
  else if auth.length < 7 ∨ foldEq (strTake auth 7) "Bearer " = false then
    .reject 401 none
  else if strDrop auth 7 ≠ token then
    .reject 403 none
  else
    .forward (headerDel headers "Authorization")

/-! ### Identifier quoting (`internal/db/snapshotter.go`) -/

/-- `baseSnapshotter.quoteIdentifier` from the source: backticks for MySQL,
double quotes otherwise, embedded quote characters doubled.  (No segment
splitting happens on `.`.) -/
def quoteIdentifier (dbType : String) (name : String) : String :=
  if dbType = "mysql" then "`" ++ replaceChar name '`' "``" ++ "`"
  else "\"" ++ replaceChar name '"' "\"\"" ++ "\""

/-! ### Sequence-number allocation (`Store.nextSeqNumber`) -/

/-- Greedy digit run of bounded width, per `fmt.Sscanf`'s `%3d`. -/
def scanDigits (budget : Nat) (cs : List Char) : Option (Nat × List Char) :=
  let ds := (cs.takeWhile Char.isDigit).take budget
  if ds = [] then none else some (digitsToNat ds, cs.drop ds.length)

/-- Model of `fmt.Sscanf(name, "%03d_", &n)`: skip leading white space, an
optional sign (the width of 3 counts the sign character), at most three
digits — maximal munch — and then the literal `_` must follow; the scan
errors otherwise.  The `0` flag is ignored when scanning. -/
def scanSeq (name : String) : Option Int :=
  match name.toList.dropWhile Char.isWhitespace with
  | '-' :: rest =>
    (match scanDigits 2 rest with
     | some (n, '_' :: _) => some (-(n : Int))
     | _ => none)
  | '+' :: rest =>
    (match scanDigits 2 rest with
     | some (n, '_' :: _) => some ((n : Int))
     | _ => none)
  | cs =>
    (match scanDigits 3 cs with
     | some (n, '_' :: _) => some ((n : Int))
     | _ => none)

/-- The loop body of `Store.nextSeqNumber`: names of length at least 3 whose
`Sscanf` succeeds bump the running maximum (`n > max`). -/
def nextSeqStep (mx : Int) (name : String) : Int :=
  if 3 ≤ name.length then
    match scanSeq name with
    | some n => if mx < n then n else mx
    | none => mx
  else mx

/-- `Store.nextSeqNumber` from the source over a directory listing (`none`
models a `ReadDir` error — missing directory): the maximum scanned value
among names of length at least 3, plus one. -/
def nextSeqNumber (dir : Option (List String)) : Int :=
  match dir with
  | none => 1
  | some entries => entries.foldl nextSeqStep 0 + 1

/-- The claim's reading of the allocation rule, written from the spec's
words: only names with an exactly-three-digit prefix followed by `_`
contribute their sequence number. -/
def threeDigitSeq (name : String) : Option Int :=
  match name.toList with
  | a :: b :: c :: '_' :: _ =>
    if a.isDigit && b.isDigit && c.isDigit then
      some ((digitsToNat [a, b, c] : Nat) : Int)
    else none
  | _ => none

/-- Sequence allocation as the claim states it: one greater than the maximum
three-digit-prefixed sequence, and 1 for an empty contribution. -/
def claimNextSeq (entries : List String) : Int :=
  (entries.filterMap threeDigitSeq).foldl max 0 + 1

/-- Sequence allocation as amended: one greater than the maximum value parsed
by `Sscanf("%03d_")` — an up-to-three-digit integer prefix followed by an
underscore — over names of length at least 3, never less than 1. -/
def amendedNextSeq (entries : List String) : Int :=
  ((entries.filter fun n => 3 ≤ n.length).filterMap scanSeq).foldl max 0 + 1

/-! ### Dynamic matchers (`internal/asserter`, `matchesDynamic`) -/

/-- Consume exactly `n` decimal digits. -/
def consumeDigits : Nat → List Char → Option (List Char)
  | 0, cs => some cs
  | n + 1, c :: cs => if c.isDigit then consumeDigits n cs else none
  | _ + 1, [] => none

/-- Consume exactly `n` hexadecimal digits (`[0-9a-fA-F]`). -/
def consumeHex : Nat → List Char → Option (List Char)
  | 0, cs => some cs
  | n + 1, c :: cs =>
    if c.isDigit || ('a' ≤ c && c ≤ 'f') || ('A' ≤ c && c ≤ 'F') then
      consumeHex n cs
    else none
  | _ + 1, [] => none

/-- Consume one expected literal character. -/
def expectChar (c : Char) : List Char → Option (List Char)
  | x :: r => if x = c then some r else none
  | [] => none

/-- Chain one recognition step: feed the remainder, if any. -/
def andThen (step : List Char → Option (List Char)) :
    Option (List Char) → Option (List Char)
  | none => none
  | some r => step r

/-- The anchored UUID regex of the source,
`^[0-9a-fA-F]\x7b8\x7d-…-[0-9a-fA-F]\x7b12\x7d$`, as a recognizer. -/
def uuidRegexAccepts (s : String) : Bool :=
  match
    (andThen (consumeHex 12)
      (andThen (expectChar '-')
        (andThen (consumeHex 4)
          (andThen (expectChar '-')
            (andThen (consumeHex 4)
              (andThen (expectChar '-')
                (andThen (consumeHex 4)
                  (andThen (expectChar '-')
                    (consumeHex 8 s.toList))))))))) with
  | some [] => true
  | _ => false

/-- The ISO-date regex of the source,
`^\d\x7b4\x7d-\d\x7b2\x7d-\d\x7b2\x7d(T\d\x7b2\x7d:\d\x7b2\x7d:\d\x7b2\x7d)?`,
as the set of strings `MatchString` accepts: the pattern is anchored only at
the start and the time group is optional, so a match exists exactly when the
date shape is a prefix — whatever follows it. -/
def isoRegexAccepts (s : String) : Bool :=
  (andThen (consumeDigits 2)
    (andThen (expectChar '-')
      (andThen (consumeDigits 2)
        (andThen (expectChar '-')
          (consumeDigits 4 s.toList))))).isSome

/-- `matchesDynamic` from the source: `__ANY__` matches everything,
`__UUID__` and `__ISO_DATE__` match strings accepted by their regexes, and
any other pattern matches nothing. -/
def matchesDynamic (pattern : String) (actual : V) : Bool :=
  if pattern = "__ANY__" then true
  else if pattern = "__UUID__" then
    match actual with
    | vstr s => uuidRegexAccepts s
    | _ => false
  else if pattern = "__ISO_DATE__" then
    match actual with
    | vstr s => isoRegexAccepts s
    | _ => false
  else false

/-- The form the claim ascribes to `__ISO_DATE__`, written from its words:
exactly `YYYY-MM-DD`, optionally followed by `Thh:mm:ss`, and nothing else. -/
def isoDateClaimForm (s : String) : Bool :=
  match
    (andThen (consumeDigits 2)
      (andThen (expectChar '-')
        (andThen (consumeDigits 2)
          (andThen (expectChar '-')
            (consumeDigits 4 s.toList))))) with
  | some [] => true
  | some ('T' :: r2) =>
    (match
      (andThen (consumeDigits 2)
        (andThen (expectChar ':')
          (andThen (consumeDigits 2)
            (andThen (expectChar ':')
              (consumeDigits 2 r2))))) with
    | some [] => true
    | _ => false)
  | _ => false

/-- The amended reading: the string begins with a `YYYY-MM-DD`-shaped prefix
(four digits, dash, two digits, dash, two digits), with an arbitrary tail. -/
def startsWithIsoDate (s : String) : Prop :=
  ∃ y1 y2 y3 y4 m1 m2 d1 d2 rest,
    s.toList = y1 :: y2 :: y3 :: y4 :: '-' :: m1 :: m2 :: '-' :: d1 :: d2 :: rest ∧
    y1.isDigit ∧ y2.isDigit ∧ y3.isDigit ∧ y4.isDigit ∧
    m1.isDigit ∧ m2.isDigit ∧ d1.isDigit ∧ d2.isDigit

/-! ### Field redaction (`redactInBody` / `redactFieldRecursive`) -/

/-- The replacement constant. -/
def redactedValue : String := "[REDACTED]"

/-- The final-segment step of `redactInBody`: replace the value under the key
if it exists. -/
def redactLeafEntries (m : List (String × V)) (p : String) : List (String × V) :=
  m.map fun q => if q.1 = p then (q.1, vstr redactedValue) else q

mutual

/-- `redactInBody` from the source: walk mapping values along the dotted
path; at the final segment replace an existing key's value with
`[REDACTED]`; non-mapping values (including sequences) are returned
unchanged. -/
def redactInBody : V → List String → V
  | body, [] => body
  | vobj m, p :: rest =>
    (match rest with
     | [] => vobj (redactLeafEntries m p)
     | _ :: _ => vobj (redactPathEntries m p rest))
  | body, _ :: _ => body

/-- The recursive-entry step of `redactInBody` for a non-final segment. -/
def redactPathEntries : List (String × V) → String → List String → List (String × V)
  | [], _, _ => []
  | (k, v) :: tail, p, rest =>
    (k, if k = p then redactInBody v rest else v) :: redactPathEntries tail p rest

end

mutual

/-- `redactFieldRecursive` from the source: on a mapping, replace the value
under `fieldName` when present, and recurse into the values that are
themselves mappings; every other value — sequences included — is returned
unchanged. -/
def redactFieldRecursive : V → String → V
  | vobj m, f => vobj (redactFieldEntries m f)
  | b, _ => b

/-- Per-entry step of `redactFieldRecursive`. -/
def redactFieldEntries : List (String × V) → String → List (String × V)
  | [], _ => []
  | (k, v) :: tail, f =>
    (k,
      if k = f then vstr redactedValue
      else
        match v with
        | vobj m2 => redactFieldRecursive (vobj m2) f
        | other => other) :: redactFieldEntries tail f

end

/-- The per-value step `redactFieldRecursive` applies to an entry it does not
replace: recurse into mappings, keep everything else. -/
def fieldStep (f : String) (v : V) : V :=
  match v with
  | vobj m2 => redactFieldRecursive (vobj m2) f
  | other => other

/-- Resolve a key path through nested mappings (spec-side observation map
for the frame statements about redaction). -/
def getPath : V → List String → Option V
  | v, [] => some v
  | vobj m, k :: rest =>
    (match List.lookup k m with
     | some v => getPath v rest
     | none => none)
  | _, _ :: _ => none

/-! ### Spec-side predicates used in theorem statements -/

/-- The `Authorization` value uses the Bearer scheme in the sense the
middleware tests it: at least 7 characters whose first 7 case-fold to
`"Bearer "`. -/
def bearerScheme (a : String) : Bool :=
  decide (7 ≤ a.length) && foldEq (strTake a 7) "Bearer "

/-- An association list with no repeated keys — the canonical image of a Go
map. -/
def nodupKeys (m : List (String × α)) : Prop := (m.map Prod.fst).Nodup

/-- Whether the differ matches a table by `id`: every row on both sides
carries the column (`indexByID` succeeds on both). -/
def idModeFor (bRows aRows : List Row) : Bool :=
  (indexByID bRows).isSome && (indexByID aRows).isSome

/-- Every row of every table has Go-map-like (duplicate-free) columns. -/
def dbStateWF (st : DBState) : Prop := ∀ p ∈ st, ∀ r ∈ p.2, nodupKeys r

/-- Row values in JSON normal form. -/
def rowNF (r : Row) : Bool := isNFEntries r

/-- All rows in JSON normal form. -/
def rowsNF (rs : List Row) : Bool := rs.all rowNF

/-- All tables' rows in JSON normal form. -/
def dbStateNF (st : DBState) : Bool := st.all fun p => rowsNF p.2

/-- A table diff whose rows are in JSON normal form. -/
def tableDiffNF (d : TableDiff) : Bool :=
  rowsNF d.added && rowsNF d.removed &&
    d.modified.all fun m => rowNF m.before && rowNF m.after

/-- A snapshot whose dynamic values are in JSON normal form — the shape every
snapshot has on disk and after a load (a freshly recorded `*EncodedBody`
struct body serializes to exactly the `\x7bdata, encoding\x7d` object this
form carries). -/
def snapshotNF (s : Snapshot) : Bool :=
  isNF s.request.body && isNF s.response.body &&
  s.outgoingRequests.all (fun o => isNF o.body &&
    (match o.response with
     | none => true
     | some r => isNF r.body)) &&
  dbStateNF s.dbStateBefore && dbStateNF s.dbStateAfter &&
  s.dbDiff.all fun p => tableDiffNF p.2

/-! ## Shared lemmas -/

theorem lookup_filter_ne_self (k : String) (l : List (String × α)) :
    List.lookup k (l.filter fun p => p.1 ≠ k) = none := by
  induction l with
  | nil => simp [List.lookup]
  | cons p rest ih =>
    rcases p with ⟨a, b⟩
    rw [List.filter_cons]
    by_cases h : a = k
    · rw [if_neg (by simp [h])]
      exact ih
    · rw [if_pos (by simp [h])]
      have hk : (k == a) = false := beq_eq_false_iff_ne.mpr (Ne.symm h)
      simp only [List.lookup, hk]
      exact ih

theorem expectChar_eq_some {c : Char} {l r : List Char}
    (h : expectChar c l = some r) : l = c :: r := by
  match l with
  | [] => simp [expectChar] at h
  | x :: t =>
    rw [expectChar] at h
    by_cases hx : x = c
    · simp [hx] at h
      simp [hx, h]
    · simp [hx] at h

theorem consumeDigits_eq_some :
    ∀ (n : Nat) (cs r : List Char), consumeDigits n cs = some r →
      ∃ ds, cs = ds ++ r ∧ ds.length = n ∧ ∀ c ∈ ds, c.isDigit := by
  intro n
  induction n with
  | zero =>
    intro cs r h
    rw [consumeDigits] at h
    exact ⟨[], by simpa using Option.some.inj h, rfl, by simp⟩
  | succ n ih =>
    intro cs r h
    match cs with
    | [] => simp [consumeDigits] at h
    | c :: cs' =>
      rw [consumeDigits] at h
      by_cases hc : c.isDigit
      · rw [if_pos hc] at h
        obtain ⟨ds, hcs, hlen, hdig⟩ := ih cs' r h
        refine ⟨c :: ds, by simp [hcs], by simp [hlen], ?_⟩
        intro x hx
        rcases List.mem_cons.mp hx with rfl | hx
        · exact hc
        · exact hdig x hx
      · rw [if_neg hc] at h
        exact absurd h (by simp)

theorem consumeDigits_append :
    ∀ (ds r : List Char), (∀ c ∈ ds, c.isDigit) →
      consumeDigits ds.length (ds ++ r) = some r := by
  intro ds
  induction ds with
  | nil => intro r _; rw [List.length_nil, List.nil_append, consumeDigits]
  | cons c ds ih =>
    intro r hdig
    have hc : c.isDigit := hdig c (by simp)
    rw [List.length_cons, List.cons_append, consumeDigits, if_pos hc]
    exact ih r fun x hx => hdig x (by simp [hx])

theorem list_len4 (l : List Char) (h : l.length = 4) :
    ∃ a b c d, l = [a, b, c, d] := by
  rcases l with _ | ⟨a, l⟩
  · simp at h
  rcases l with _ | ⟨b, l⟩
  · simp at h
  rcases l with _ | ⟨c, l⟩
  · simp at h
  rcases l with _ | ⟨d, l⟩
  · simp at h
  rcases l with _ | ⟨e, l⟩
  · exact ⟨a, b, c, d, rfl⟩
  · simp at h

theorem list_len2 (l : List Char) (h : l.length = 2) :
    ∃ a b, l = [a, b] := by
  rcases l with _ | ⟨a, l⟩
  · simp at h
  rcases l with _ | ⟨b, l⟩
  · simp at h
  rcases l with _ | ⟨c, l⟩
  · exact ⟨a, b, rfl⟩
  · simp at h

/-! ## C1 — body-codec round-trip on text content -/

/-- C1 (status: code bug).  The claimed round-trip `DecodeBody ∘ ParseBody =
id` fails for text content types: `ParseBody` stores a `text/plain` body as a
plain Go string (never as a `text`-tagged record, although `DecodeBody`
supports one), so `DecodeBody` re-serializes it as JSON and the bytes come
back quoted.  At the failing input `B = "hi"`, `C = "text/plain"` the decoded
bytes are `0x22 68 69 0x22` — the JSON string literal — instead of the
original `0x68 69`. -/
theorem claim_C1_text_body_decode :
    ParseBody "hi" "text/plain" = V.vstr "hi" ∧
    DecodeBody (ParseBody "hi" "text/plain") = .ok (strBytes "\"hi\"") ∧
    strBytes "hi" = [104, 105] ∧
    strBytes "\"hi\"" = [34, 104, 105, 34] ∧
    strBytes "\"hi\"" ≠ strBytes "hi" :=
  ⟨rfl, rfl, rfl, rfl, by decide⟩

/-! ## C6 — identifier quoting of schema-qualified names -/

/-- C6 (status: code bug).  `quoteIdentifier` quotes the whole name as a
single identifier and never splits on `.`, so the schema-qualified
`myschema.users` becomes `"myschema.users"` on Postgres and
`mydb.users` becomes a single back-quoted identifier on MySQL — not the
per-segment quoting the spec and the repository's own
`TestQuoteIdentifier_SchemaQualified` demand. -/
theorem claim_C6_schema_quoting :
    quoteIdentifier "postgres" "myschema.users" = "\"myschema.users\"" ∧
    quoteIdentifier "mysql" "mydb.users" = "`mydb.users`" ∧
    quoteIdentifier "postgres" "myschema.users" ≠ "\"myschema\".\"users\"" ∧
    quoteIdentifier "mysql" "mydb.users" ≠ "`mydb`.`users`" :=
  ⟨rfl, rfl, by decide, by decide⟩

/-! ## C7 — sequence-number allocation -/

/-- C7, counterexample.  The claim says only three-digit-prefixed names
contribute; but `Sscanf("%03d_")` maximally munches *up to* three digits, so
a directory containing only `12_x` yields sequence 13 where the claim as
stated yields 1. -/
theorem claim_C7_counterexample :
    nextSeqNumber (some ["12_x"]) ≠ claimNextSeq ["12_x"] ∧
    nextSeqNumber (some ["12_x"]) = 13 ∧ claimNextSeq ["12_x"] = 1 :=
  ⟨by decide, rfl, rfl⟩

theorem int_if_lt_eq_max (mx n : Int) : (if mx < n then n else mx) = max mx n := by
  rcases le_or_lt n mx with h | h
  · rw [if_neg (not_lt.mpr h), max_eq_left h]
  · rw [if_pos h, max_eq_right h.le]

theorem nextSeq_fold_eq :
    ∀ (entries : List String) (mx : Int),
      entries.foldl nextSeqStep mx =
      ((entries.filter fun n => 3 ≤ n.length).filterMap scanSeq).foldl max mx := by
  intro entries
  induction entries with
  | nil => intro mx; rfl
  | cons name rest ih =>
    intro mx
    by_cases hlen : 3 ≤ name.length
    · have hf : List.filter (fun n => decide (3 ≤ n.length)) (name :: rest) =
          name :: List.filter (fun n => decide (3 ≤ n.length)) rest := by
        simp [List.filter_cons, hlen]
      cases hscan : scanSeq name with
      | none =>
        have h1 : nextSeqStep mx name = mx := by rw [nextSeqStep, if_pos hlen, hscan]
        rw [List.foldl_cons, h1, ih, hf]
        simp [List.filterMap_cons, hscan]
      | some n =>
        have h1 : nextSeqStep mx name = max mx n := by
          rw [nextSeqStep, if_pos hlen, hscan]
          exact int_if_lt_eq_max mx n
        rw [List.foldl_cons, h1, ih, hf]
        simp [List.filterMap_cons, hscan]
    · have hf : List.filter (fun n => decide (3 ≤ n.length)) (name :: rest) =
          List.filter (fun n => decide (3 ≤ n.length)) rest := by
        simp [List.filter_cons, hlen]
      have h1 : nextSeqStep mx name = mx := by rw [nextSeqStep, if_neg hlen]
      rw [List.foldl_cons, h1, ih, hf]

/-- C7, amended.  The sequence number `Store.nextSeqNumber` allocates is one
greater than the maximum value `fmt.Sscanf("%03d_", ·)` parses from the
existing names — an integer prefix of *at most* three digits followed by
`_`, over names at least 3 characters long — never less than 1, with 1 for
an empty or unreadable directory; in particular `001_…, 003_…` yields
`004_…`. -/
theorem claim_C7_next_sequence :
    (∀ entries, nextSeqNumber (some entries) = amendedNextSeq entries) ∧
    nextSeqNumber none = 1 ∧
    nextSeqNumber (some []) = 1 ∧
    nextSeqNumber (some ["001_a", "003_b"]) = 4 := by
  refine ⟨fun entries => ?_, rfl, rfl, rfl⟩
  rw [nextSeqNumber, amendedNextSeq, nextSeq_fold_eq]

/-! ## C8 — the `__ISO_DATE__` dynamic matcher -/

/-- C8, counterexample.  The ISO-date regex is unanchored at the end, so
`matchesDynamic` accepts `2024-01-01bogus`, which is not of the claimed form
`YYYY-MM-DD` optionally followed by `Thh:mm:ss`. -/
theorem claim_C8_counterexample :
    matchesDynamic "__ISO_DATE__" (V.vstr "2024-01-01bogus") = true ∧
    isoDateClaimForm "2024-01-01bogus" = false :=
  ⟨rfl, rfl⟩

/-- C8, amended.  `"__ISO_DATE__"` matches exactly the values that are
strings beginning with a `YYYY-MM-DD`-shaped prefix (four digits, dash, two
digits, dash, two digits) — the optional `Thh:mm:ss` group and any other
tail are accepted alike, and non-strings never match. -/
theorem claim_C8_iso_date_matcher :
    ∀ v, matchesDynamic "__ISO_DATE__" v = true ↔
      ∃ s, v = V.vstr s ∧ startsWithIsoDate s := by
  intro v
  cases v with
  | vstr s =>
    have hm : matchesDynamic "__ISO_DATE__" (V.vstr s) = isoRegexAccepts s := by
      simp [matchesDynamic]
    rw [hm]
    constructor
    · intro h
      unfold isoRegexAccepts at h
      refine ⟨s, rfl, ?_⟩
      cases h4 : consumeDigits 4 s.toList with
      | none => rw [h4] at h; simp [andThen] at h
      | some r1 =>
        rw [h4] at h
        cases hd1 : expectChar '-' r1 with
        | none => rw [show andThen (expectChar '-') (some r1) = none from hd1] at h
                  simp [andThen] at h
        | some r2 =>
          rw [show andThen (expectChar '-') (some r1) = some r2 from hd1] at h
          cases h2 : consumeDigits 2 r2 with
          | none => rw [show andThen (consumeDigits 2) (some r2) = none from h2] at h
                    simp [andThen] at h
          | some r3 =>
            rw [show andThen (consumeDigits 2) (some r2) = some r3 from h2] at h
            cases hd2 : expectChar '-' r3 with
            | none => rw [show andThen (expectChar '-') (some r3) = none from hd2] at h
                      simp [andThen] at h
            | some r4 =>
              rw [show andThen (expectChar '-') (some r3) = some r4 from hd2] at h
              rw [show andThen (consumeDigits 2) (some r4) = consumeDigits 2 r4 from rfl] at h
              obtain ⟨r5, h3⟩ := Option.isSome_iff_exists.mp h
              obtain ⟨ds1, hcs1, hlen1, hdig1⟩ := consumeDigits_eq_some _ _ _ h4
              obtain ⟨ds2, hcs2, hlen2, hdig2⟩ := consumeDigits_eq_some _ _ _ h2
              obtain ⟨ds3, hcs3, hlen3, hdig3⟩ := consumeDigits_eq_some _ _ _ h3
              obtain ⟨y1, y2, y3, y4, rfl⟩ := list_len4 ds1 hlen1
              obtain ⟨m1, m2, rfl⟩ := list_len2 ds2 hlen2
              obtain ⟨d1, d2, rfl⟩ := list_len2 ds3 hlen3
              have e1 := expectChar_eq_some hd1
              have e2 := expectChar_eq_some hd2
              refine ⟨y1, y2, y3, y4, m1, m2, d1, d2, r5,
                ?_, ?_, ?_, ?_, ?_, ?_, ?_, ?_, ?_⟩
              · rw [hcs1, e1, hcs2, e2, hcs3]; simp
              · exact hdig1 y1 (by simp)
              · exact hdig1 y2 (by simp)
              · exact hdig1 y3 (by simp)
              · exact hdig1 y4 (by simp)
              · exact hdig2 m1 (by simp)
              · exact hdig2 m2 (by simp)
              · exact hdig3 d1 (by simp)
              · exact hdig3 d2 (by simp)
    · rintro ⟨t, ht, y1, y2, y3, y4, m1, m2, d1, d2, rest, hshape,
        hy1, hy2, hy3, hy4, hm1, hm2, hd1, hd2⟩
      have hst : s = t := by injection ht
      have hdig1 : ∀ c ∈ [y1, y2, y3, y4], c.isDigit := by
        intro c hc
        simp only [List.mem_cons, List.not_mem_nil, or_false] at hc
        rcases hc with rfl | rfl | rfl | rfl <;> assumption
      have hdig2 : ∀ c ∈ [m1, m2], c.isDigit := by
        intro c hc
        simp only [List.mem_cons, List.not_mem_nil, or_false] at hc
        rcases hc with rfl | rfl <;> assumption
      have hdig3 : ∀ c ∈ [d1, d2], c.isDigit := by
        intro c hc
        simp only [List.mem_cons, List.not_mem_nil, or_false] at hc
        rcases hc with rfl | rfl <;> assumption
      have c4 : consumeDigits 4 (y1 :: y2 :: y3 :: y4 :: '-' :: m1 :: m2 ::
          '-' :: d1 :: d2 :: rest) = some ('-' :: m1 :: m2 :: '-' :: d1 :: d2 :: rest) := by
        simpa using consumeDigits_append [y1, y2, y3, y4]
          ('-' :: m1 :: m2 :: '-' :: d1 :: d2 :: rest) hdig1
      have c2a : consumeDigits 2 (m1 :: m2 :: '-' :: d1 :: d2 :: rest) =
          some ('-' :: d1 :: d2 :: rest) := by
        simpa using consumeDigits_append [m1, m2] ('-' :: d1 :: d2 :: rest) hdig2
      have c2b : consumeDigits 2 (d1 :: d2 :: rest) = some rest := by
        simpa using consumeDigits_append [d1, d2] rest hdig3
      unfold isoRegexAccepts
      rw [hst, hshape, c4]
      rw [show andThen (expectChar '-') (some ('-' :: m1 :: m2 :: '-' :: d1 ::
        d2 :: rest)) = some (m1 :: m2 :: '-' :: d1 :: d2 :: rest) from rfl]
      rw [show andThen (consumeDigits 2) (some (m1 :: m2 :: '-' :: d1 :: d2 ::
        rest)) = consumeDigits 2 (m1 :: m2 :: '-' :: d1 :: d2 :: rest) from rfl]
      rw [c2a]
      rw [show andThen (expectChar '-') (some ('-' :: d1 :: d2 :: rest)) =
        some (d1 :: d2 :: rest) from rfl]
      rw [show andThen (consumeDigits 2) (some (d1 :: d2 :: rest)) =
        consumeDigits 2 (d1 :: d2 :: rest) from rfl]
      rw [c2b]
      rfl
  | vnull => simp [matchesDynamic]
  | vbool b => simp [matchesDynamic]
  | vnum n => simp [matchesDynamic]
  | varr l => simp [matchesDynamic]
  | vobj m => simp [matchesDynamic]
  | venc d e => simp [matchesDynamic]

/-! ## C4 — mock-server miss behavior -/

/-- C4.  Any inbound mock-server call that matches no loaded expectation is
answered `502 Bad Gateway` with body `\x7b"error": "no mock expectation
matched"\x7d` (the JSON object the spec spells without the space), the call is
still appended to the recorded-calls list, and the status is in particular
never 2xx. -/
theorem claim_C4_mock_miss (outgoing : List OutgoingRequest)
    (calls : List RecordedCall) (method urlStr urlPath : String)
    (headers : List (String × String)) (rawBody : String)
    (hmiss : findExpectation (NewServer outgoing) method urlStr urlPath = none) :
    (handleRequest (NewServer outgoing) calls method urlStr urlPath headers rawBody).status
        = 502 ∧
    (handleRequest (NewServer outgoing) calls method urlStr urlPath headers rawBody).body
        = mockMissBody ∧
    (∃ c : RecordedCall,
      (handleRequest (NewServer outgoing) calls method urlStr urlPath headers rawBody).calls
          = calls ++ [c] ∧
      c.method = method ∧ c.url = urlStr ∧ c.headers = headers ∧ c.response = none) ∧
    ¬(200 ≤ (handleRequest (NewServer outgoing) calls method urlStr urlPath headers
        rawBody).status ∧
      (handleRequest (NewServer outgoing) calls method urlStr urlPath headers
        rawBody).status < 300) := by
  rw [handleRequest, hmiss]
  exact ⟨rfl, rfl,
    ⟨⟨method, urlStr, headers,
      if rawBody = "" then V.vnull else (jsonParse rawBody).getD (V.vstr rawBody),
      none⟩, rfl, rfl, rfl, rfl, rfl⟩,
    (by decide : ¬((200 : Int) ≤ 502 ∧ (502 : Int) < 300))⟩

/-- Witness for C4 at a concrete unmatched call. -/
theorem claim_C4_mock_miss_witness :
    findExpectation (NewServer []) "GET" "/unknown" "/unknown" = none ∧
    (handleRequest (NewServer []) [] "GET" "/unknown" "/unknown" [] "").status = 502 ∧
    (handleRequest (NewServer []) [] "GET" "/unknown" "/unknown" [] "").body
      = mockMissBody := by
  have h := claim_C4_mock_miss [] [] "GET" "/unknown" "/unknown" [] "" rfl
  exact ⟨rfl, h.1, h.2.1⟩

/-! ## C5 — Bearer authentication middleware -/

/-- C5.  With an auth token configured: a request without an `Authorization`
header is rejected 401 with `WWW-Authenticate: Bearer realm="snapshot-tester"`;
a non-Bearer `Authorization` value is rejected 401; a Bearer value with the
wrong token is rejected 403; the correct Bearer token forwards the request
with its `Authorization` header removed, so the header map the service sees
no longer binds `Authorization` at all. -/
theorem claim_C5_auth_middleware (token : String)
    (headers : List (String × String)) (htok : token ≠ "") :
    (headerGet headers "Authorization" = "" →
      withAuth token headers = .reject 401 (some "Bearer realm=\"snapshot-tester\"")) ∧
    (headerGet headers "Authorization" ≠ "" →
      bearerScheme (headerGet headers "Authorization") = false →
      withAuth token headers = .reject 401 none) ∧
    (bearerScheme (headerGet headers "Authorization") = true →
      strDrop (headerGet headers "Authorization") 7 ≠ token →
      withAuth token headers = .reject 403 none) ∧
    (bearerScheme (headerGet headers "Authorization") = true →
      strDrop (headerGet headers "Authorization") 7 = token →
      withAuth token headers = .forward (headerDel headers "Authorization") ∧
      List.lookup "Authorization" (headerDel headers "Authorization") = none) := by
  refine ⟨fun hempty => ?_, fun hne hscheme => ?_, fun hscheme hwrong => ?_,
    fun hscheme hright => ?_⟩
  · rw [withAuth, if_pos hempty]
  · have hcond : (headerGet headers "Authorization").length < 7 ∨
        foldEq (strTake (headerGet headers "Authorization") 7) "Bearer " = false := by
      rw [bearerScheme, Bool.and_eq_false_iff] at hscheme
      rcases hscheme with h | h
      · exact Or.inl (by simpa using h)
      · exact Or.inr h
    rw [withAuth, if_neg hne, if_pos hcond]
  · have hne : headerGet headers "Authorization" ≠ "" := by
      intro h
      rw [bearerScheme, h] at hscheme
      simp [strTake, foldEq] at hscheme
    have hcond : ¬((headerGet headers "Authorization").length < 7 ∨
        foldEq (strTake (headerGet headers "Authorization") 7) "Bearer " = false) := by
      rw [bearerScheme, Bool.and_eq_true] at hscheme
      push_neg
      exact ⟨by simpa using hscheme.1, by simp [hscheme.2]⟩
    rw [withAuth, if_neg hne, if_neg hcond, if_pos hwrong]
  · have hne : headerGet headers "Authorization" ≠ "" := by
      intro h
      rw [bearerScheme, h] at hscheme
      simp [strTake, foldEq] at hscheme
    have hcond : ¬((headerGet headers "Authorization").length < 7 ∨
        foldEq (strTake (headerGet headers "Authorization") 7) "Bearer " = false) := by
      rw [bearerScheme, Bool.and_eq_true] at hscheme
      push_neg
      exact ⟨by simpa using hscheme.1, by simp [hscheme.2]⟩
    refine ⟨?_, lookup_filter_ne_self _ _⟩
    rw [withAuth, if_neg hne, if_neg hcond, if_neg (by simpa using hright)]

/-- Witness for C5 at concrete header maps covering all four outcomes. -/
theorem claim_C5_auth_middleware_witness :
    withAuth "tok" [] = .reject 401 (some "Bearer realm=\"snapshot-tester\"") ∧
    withAuth "tok" [("Authorization", "Basic abc")] = .reject 401 none ∧
    withAuth "tok" [("Authorization", "Bearer wrong")] = .reject 403 none ∧
    withAuth "tok" [("Authorization", "Bearer tok"), ("X-Req", "1")]
      = .forward [("X-Req", "1")] := by
  have h1 := (claim_C5_auth_middleware "tok" [] (by decide)).1 rfl
  have h2 := (claim_C5_auth_middleware "tok" [("Authorization", "Basic abc")]
    (by decide)).2.1 (by decide) (by decide)
  have h3 := (claim_C5_auth_middleware "tok" [("Authorization", "Bearer wrong")]
    (by decide)).2.2.1 (by decide) (by decide)
  have h4 := (claim_C5_auth_middleware "tok"
    [("Authorization", "Bearer tok"), ("X-Req", "1")] (by decide)).2.2.2
    (by decide) (by decide)
  exact ⟨h1, h2, h3, h4.1⟩

/-! ## Association-list and fold lemmas for the differ -/

theorem lookup_filter_ne (hk : k ≠ k') (m : List (String × α)) :
    List.lookup k (m.filter fun p => p.1 ≠ k') = List.lookup k m := by
  induction m with
  | nil => rfl
  | cons p rest ih =>
    rcases p with ⟨a, b⟩
    rw [List.filter_cons]
    by_cases ha : a = k'
    · rw [if_neg (by simp [ha])]
      have : (k == a) = false := beq_eq_false_iff_ne.mpr (by rw [ha]; exact hk)
      rw [ih, List.lookup]
      simp only [this]
    · rw [if_pos (by simp [ha])]
      by_cases hka : k = a
      · simp only [List.lookup, hka, beq_self_eq_true]
      · have h1 : (k == a) = false := beq_eq_false_iff_ne.mpr hka
        simp only [List.lookup, h1]
        exact ih

theorem mem_mapInsert {p : String × α} (h : p ∈ mapInsert k v m) :
    p = (k, v) ∨ p ∈ m := by
  rw [mapInsert] at h
  rcases List.mem_cons.mp h with h | h
  · exact Or.inl h
  · exact Or.inr (List.mem_of_mem_filter h)

theorem nodupKeys_mapInsert (k : String) (v : α) (m : List (String × α))
    (h : nodupKeys m) : nodupKeys (mapInsert k v m) := by
  rw [mapInsert, nodupKeys, List.map_cons, List.nodup_cons]
  refine ⟨?_, ?_⟩
  · intro hk
    obtain ⟨p, hp, hpk⟩ := List.mem_map.mp hk
    have hne := List.of_mem_filter hp
    simp only [decide_eq_true_eq] at hne
    exact hne hpk
  · exact h.sublist ((List.filter_sublist m).map Prod.fst)

theorem lookup_mapInsert_self (k : String) (v : α) (m : List (String × α)) :
    List.lookup k (mapInsert k v m) = some v := by
  simp [mapInsert, List.lookup]

theorem lookup_isSome_of_mem {m : List (String × α)} (h : (k, v) ∈ m) :
    (List.lookup k m).isSome := by
  induction m with
  | nil => simp at h
  | cons p rest ih =>
    rcases p with ⟨a, b⟩
    by_cases hka : k = a
    · simp [List.lookup, hka]
    · have hb : (k == a) = false := beq_eq_false_iff_ne.mpr hka
      simp only [List.lookup, hb]
      rcases List.mem_cons.mp h with heq | hm
      · exact absurd (congrArg Prod.fst heq) hka
      · exact ih hm

theorem lookup_of_mem_nodup {m : List (String × α)} (hn : nodupKeys m)
    (h : (k, v) ∈ m) : List.lookup k m = some v := by
  induction m with
  | nil => simp at h
  | cons p rest ih =>
    rcases p with ⟨a, b⟩
    rw [nodupKeys, List.map_cons, List.nodup_cons] at hn
    rcases List.mem_cons.mp h with heq | hm
    · rcases Prod.mk.injEq .. ▸ heq with ⟨h1, h2⟩
      cases h1
      cases h2
      simp [List.lookup]
    · have hka : k ≠ a := by
        intro hk
        exact hn.1 (hk ▸ List.mem_map.mpr ⟨(k, v), hm, rfl⟩)
      have hb : (k == a) = false := beq_eq_false_iff_ne.mpr hka
      simp only [List.lookup, hb]
      exact ih hn.2 hm

theorem mem_of_lookup_eq_some {m : List (String × α)}
    (h : List.lookup k m = some v) : (k, v) ∈ m := by
  induction m with
  | nil => simp [List.lookup] at h
  | cons p rest ih =>
    rcases p with ⟨a, b⟩
    by_cases hka : k = a
    · simp only [List.lookup, hka, beq_self_eq_true] at h
      exact List.mem_cons.mpr (Or.inl (by rw [hka, Option.some.inj h]))
    · have hb : (k == a) = false := beq_eq_false_iff_ne.mpr hka
      simp only [List.lookup, hb] at h
      exact List.mem_cons.mpr (Or.inr (ih h))

theorem lookup_mapInsert_isSome {m : List (String × α)} (k k' : String) (v : α)
    (h : (List.lookup k m).isSome) :
    (List.lookup k (mapInsert k' v m)).isSome := by
  by_cases hk : k = k'
  · rw [hk, lookup_mapInsert_self]
    rfl
  · rw [mapInsert]
    have hb : (k == k') = false := beq_eq_false_iff_ne.mpr hk
    simp only [List.lookup, hb]
    rw [lookup_filter_ne hk]
    exact h

theorem foldl_mapInsert_mem {f : α → String} :
    ∀ (rows : List α) (start : List (String × α)) (p : String × α),
      p ∈ rows.foldl (fun m r => mapInsert (f r) r m) start →
      p ∈ start ∨ (p.2 ∈ rows ∧ p.1 = f p.2) := by
  intro rows
  induction rows with
  | nil => intro start p h; exact Or.inl h
  | cons r rest ih =>
    intro start p h
    rw [List.foldl_cons] at h
    rcases ih _ p h with hin | ⟨hmem, hkey⟩
    · rcases mem_mapInsert hin with heq | hin2
      · right
        rw [heq]
        exact ⟨List.mem_cons_self r rest, rfl⟩
      · exact Or.inl hin2
    · exact Or.inr ⟨List.mem_cons_of_mem _ hmem, hkey⟩

theorem foldl_mapInsert_preserve_isSome {f : α → String} :
    ∀ (rows : List α) (start : List (String × α)) (k : String),
      (List.lookup k start).isSome →
      (List.lookup k (rows.foldl (fun m r => mapInsert (f r) r m) start)).isSome := by
  intro rows
  induction rows with
  | nil => intro start k h; exact h
  | cons r rest ih =>
    intro start k h
    rw [List.foldl_cons]
    exact ih _ k (lookup_mapInsert_isSome k (f r) r h)

theorem foldl_mapInsert_key_isSome {f : α → String} :
    ∀ (rows : List α) (start : List (String × α)) (r : α), r ∈ rows →
      (List.lookup (f r)
        (rows.foldl (fun m x => mapInsert (f x) x m) start)).isSome := by
  intro rows
  induction rows with
  | nil => intro start r h; simp at h
  | cons x rest ih =>
    intro start r hr
    rw [List.foldl_cons]
    rcases List.mem_cons.mp hr with rfl | hr'
    · exact foldl_mapInsert_preserve_isSome rest _ (f r)
        (by rw [lookup_mapInsert_self]; rfl)
    · exact ih _ r hr'

theorem foldl_mapInsert_nodupKeys {f : α → String} :
    ∀ (rows : List α) (start : List (String × α)), nodupKeys start →
      nodupKeys (rows.foldl (fun m r => mapInsert (f r) r m) start) := by
  intro rows
  induction rows with
  | nil => intro start h; exact h
  | cons r rest ih =>
    intro start h
    rw [List.foldl_cons]
    exact ih _ (nodupKeys_mapInsert _ _ _ h)

theorem indexByID_some :
    ∀ (rows : List Row) (acc m : List (String × Row)),
      rows.foldlM (fun idx r =>
        match List.lookup "id" r with
        | some idv => some (mapInsert (goFormat idv) r idx)
        | none => none) acc = some m →
      m = rows.foldl (fun idx r => mapInsert (idKeyOf r) r idx) acc := by
  intro rows
  induction rows with
  | nil =>
    intro acc m h
    exact (Option.some.inj h).symm
  | cons r rest ih =>
    intro acc m h
    rw [List.foldlM_cons] at h
    cases hid : List.lookup "id" r with
    | none => rw [hid] at h; simp at h
    | some idv =>
      rw [hid] at h
      simp only [Option.some_bind] at h
      have hkey : idKeyOf r = goFormat idv := by rw [idKeyOf, hid]; rfl
      rw [List.foldl_cons, hkey]
      exact ih _ m h

theorem indexByID_eq_fold {rows : List Row} {m : List (String × Row)}
    (h : indexByID rows = some m) :
    m = rows.foldl (fun idx r => mapInsert (idKeyOf r) r idx) [] :=
  indexByID_some rows [] m h

/-! ## Generic membership lemmas for the diff construction -/

theorem diff_added_spec {f : Row → String} (bRows aRows : List Row)
    {bm am : List (String × Row)}
    (hbm : bm = bRows.foldl (fun m r => mapInsert (f r) r m) [])
    (ham : am = aRows.foldl (fun m r => mapInsert (f r) r m) []) :
    ∀ r ∈ (am.filterMap fun p =>
        if (List.lookup p.1 bm).isSome then none else some p.2),
      r ∈ aRows ∧ ∀ b ∈ bRows, f b ≠ f r := by
  intro r hr
  obtain ⟨p, hp, hcond⟩ := List.mem_filterMap.mp hr
  by_cases hs : (List.lookup p.1 bm).isSome
  · rw [if_pos hs] at hcond; exact absurd hcond (by simp)
  · rw [if_neg hs] at hcond
    have hpr : p.2 = r := Option.some.inj hcond
    rcases foldl_mapInsert_mem aRows [] p (ham ▸ hp) with hnil | ⟨hmem, hkey⟩
    · simp at hnil
    · refine ⟨hpr ▸ hmem, ?_⟩
      intro b hb heq
      apply hs
      rw [hbm, hkey, hpr, ← heq]
      exact foldl_mapInsert_key_isSome bRows [] b hb

theorem diff_modified_spec {f : Row → String} (bRows aRows : List Row)
    {bm am : List (String × Row)}
    (hbm : bm = bRows.foldl (fun m r => mapInsert (f r) r m) [])
    (ham : am = aRows.foldl (fun m r => mapInsert (f r) r m) []) :
    ∀ p ∈ (bm.filterMap fun q =>
        match List.lookup q.1 am with
        | some ar => if rowsEqual q.2 ar then none else some (ModifiedRow.mk q.2 ar)
        | none => none),
      p.before ∈ bRows ∧ p.after ∈ aRows ∧ f p.before = f p.after := by
  intro p hp
  obtain ⟨q, hq, hcond⟩ := List.mem_filterMap.mp hp
  cases hl : List.lookup q.1 am with
  | none =>
    rw [hl] at hcond
    exact absurd hcond (by simp)
  | some ar =>
    rw [hl] at hcond
    have hcond2 : (if rowsEqual q.2 ar then none
        else some (ModifiedRow.mk q.2 ar)) = some p := hcond
    by_cases he : rowsEqual q.2 ar
    · rw [if_pos he] at hcond2; exact absurd hcond2 (by simp)
    · rw [if_neg he] at hcond2
      have hpq : ModifiedRow.mk q.2 ar = p := Option.some.inj hcond2
      rcases foldl_mapInsert_mem bRows [] q (hbm ▸ hq) with hnil | ⟨hmemb, hkeyb⟩
      · simp at hnil
      · have har : (q.1, ar) ∈ am := mem_of_lookup_eq_some hl
        rcases foldl_mapInsert_mem aRows [] (q.1, ar) (ham ▸ har) with hnil | ⟨hmema, hkeya⟩
        · simp at hnil
        · rw [← hpq]
          exact ⟨hmemb, hmema, by rw [← hkeyb, ← hkeya]⟩

/-! ## diffTable equation lemmas -/

theorem diffTable_eq_id {bRows aRows : List Row} {bm am : List (String × Row)}
    (hB : indexByID bRows = some bm) (hA : indexByID aRows = some am) :
    diffTable bRows aRows =
      { added := am.filterMap fun p =>
          if (List.lookup p.1 bm).isSome then none else some p.2
        removed := bm.filterMap fun p =>
          if (List.lookup p.1 am).isSome then none else some p.2
        modified := bm.filterMap fun p =>
          match List.lookup p.1 am with
          | some ar => if rowsEqual p.2 ar then none else some ⟨p.2, ar⟩
          | none => none } := by
  unfold diffTable
  rw [hB, hA]

theorem diffTable_eq_hash {bRows aRows : List Row}
    (h : indexByID bRows = none ∨ indexByID aRows = none) :
    diffTable bRows aRows =
      { added := (aRows.foldl (fun m r => mapInsert (hashRow r) r m) []).filterMap
          fun p => if (List.lookup p.1
            (bRows.foldl (fun m r => mapInsert (hashRow r) r m) [])).isSome
            then none else some p.2
        removed := (bRows.foldl (fun m r => mapInsert (hashRow r) r m) []).filterMap
          fun p => if (List.lookup p.1
            (aRows.foldl (fun m r => mapInsert (hashRow r) r m) [])).isSome
            then none else some p.2
        modified := [] } := by
  unfold diffTable
  rcases h with h | h
  · rw [h]
  · rw [h]
    cases indexByID bRows <;> rfl

/-! ## C9 — diff reflexivity -/

theorem rowsEqual_refl (r : Row) (h : nodupKeys r) : rowsEqual r r = true := by
  rw [rowsEqual]
  simp only [beq_self_eq_true, Bool.true_and, List.all_eq_true]
  intro p hp
  rw [lookup_of_mem_nodup h (by exact hp)]
  simp

theorem diffTable_self (rows : List Row) (h : ∀ r ∈ rows, nodupKeys r) :
    diffTable rows rows = ⟨[], [], []⟩ := by
  cases hI : indexByID rows with
  | some m =>
    have hm := indexByID_eq_fold hI
    have hnodup : nodupKeys m := hm ▸
      foldl_mapInsert_nodupKeys rows [] (by simp [nodupKeys])
    rw [diffTable_eq_id hI hI]
    have hsome : ∀ p ∈ m, (List.lookup p.1 m).isSome := fun p hp =>
      lookup_isSome_of_mem (v := p.2) hp
    congr 1
    · rw [List.filterMap_eq_nil_iff]
      intro p hp
      rw [if_pos (hsome p hp)]
    · rw [List.filterMap_eq_nil_iff]
      intro p hp
      rw [if_pos (hsome p hp)]
    · rw [List.filterMap_eq_nil_iff]
      intro p hp
      rw [lookup_of_mem_nodup hnodup (by exact hp)]
      have hpr : p.2 ∈ rows := by
        rcases foldl_mapInsert_mem rows [] p (hm ▸ hp) with hnil | ⟨hmem, _⟩
        · simp at hnil
        · exact hmem
      show (if rowsEqual p.2 p.2 then (none : Option ModifiedRow)
        else some ⟨p.2, p.2⟩) = none
      rw [if_pos (rowsEqual_refl p.2 (h p.2 hpr))]
  | none =>
    rw [diffTable_eq_hash (Or.inl hI)]
    have hsome : ∀ p ∈ (rows.foldl (fun m r => mapInsert (hashRow r) r m) []),
        (List.lookup p.1 (rows.foldl (fun m r => mapInsert (hashRow r) r m) [])).isSome :=
      fun p hp => lookup_isSome_of_mem (v := p.2) hp
    congr 1
    · rw [List.filterMap_eq_nil_iff]
      intro p hp
      rw [if_pos (hsome p hp)]
    · rw [List.filterMap_eq_nil_iff]
      intro p hp
      rw [if_pos (hsome p hp)]

/-- C9.  For every DB state `X` (with Go-map-like rows), `ComputeDiff X X`
yields empty `added`, `removed` and `modified` for every table. -/
theorem claim_C9_diff_reflexive (X : DBState) (hwf : dbStateWF X) :
    ∀ entry ∈ ComputeDiff X X, entry.2 = ⟨[], [], []⟩ := by
  intro entry hentry
  obtain ⟨t, _, hdef⟩ := List.mem_map.mp hentry
  have hrows : ∀ r ∈ lookupD X t, nodupKeys r := by
    intro r hr
    rw [lookupD] at hr
    cases hl : List.lookup t X with
    | none => rw [hl] at hr; simp at hr
    | some rs =>
      rw [hl] at hr
      exact hwf (t, rs) (mem_of_lookup_eq_some hl) r hr
  rw [← hdef]
  exact diffTable_self (lookupD X t) hrows

/-- Witness for C9 at a concrete two-table state with a nonempty and an
empty table. -/
theorem claim_C9_diff_reflexive_witness :
    dbStateWF [("users", [[("id", V.vnum 1), ("name", V.vstr "Alice")]]), ("empty", [])] ∧
    ("users", diffTable [[("id", V.vnum 1), ("name", V.vstr "Alice")]]
        [[("id", V.vnum 1), ("name", V.vstr "Alice")]]).2 = (⟨[], [], []⟩ : TableDiff) := by
  have hwf : dbStateWF
      [("users", [[("id", V.vnum 1), ("name", V.vstr "Alice")]]), ("empty", [])] := by
    intro p hp r hr
    rcases List.mem_cons.mp hp with rfl | hp2
    · rcases List.mem_cons.mp hr with rfl | hr2
      · simp [nodupKeys]
      · simp at hr2
    · rcases List.mem_cons.mp hp2 with rfl | hp3
      · simp at hr
      · simp at hp3
  refine ⟨hwf, ?_⟩
  exact claim_C9_diff_reflexive
    [("users", [[("id", V.vnum 1), ("name", V.vstr "Alice")]]), ("empty", [])] hwf
    ("users", diffTable [[("id", V.vnum 1), ("name", V.vstr "Alice")]]
      [[("id", V.vnum 1), ("name", V.vstr "Alice")]])
    (by simp [ComputeDiff, keyUnion, lookupD, List.lookup])

/-! ## C3 — diff membership invariant -/

theorem diffTable_spec (bRows aRows : List Row) :
    (∀ r ∈ (diffTable bRows aRows).added, r ∈ aRows ∧
      ∀ b ∈ bRows, rowIdent (idModeFor bRows aRows) b ≠
        rowIdent (idModeFor bRows aRows) r) ∧
    (∀ r ∈ (diffTable bRows aRows).removed, r ∈ bRows ∧
      ∀ a ∈ aRows, rowIdent (idModeFor bRows aRows) a ≠
        rowIdent (idModeFor bRows aRows) r) ∧
    (∀ p ∈ (diffTable bRows aRows).modified, p.before ∈ bRows ∧ p.after ∈ aRows ∧
      rowIdent (idModeFor bRows aRows) p.before =
        rowIdent (idModeFor bRows aRows) p.after) := by
  cases hB : indexByID bRows with
  | some bm =>
    cases hA : indexByID aRows with
    | some am =>
      have hmode : idModeFor bRows aRows = true := by
        rw [idModeFor, hB, hA]; rfl
      have hid : ∀ r : Row, rowIdent (idModeFor bRows aRows) r = idKeyOf r := by
        intro r; rw [hmode, rowIdent, if_pos rfl]
      rw [diffTable_eq_id hB hA]
      refine ⟨?_, ?_, ?_⟩
      · intro r hr
        have := diff_added_spec (f := idKeyOf) bRows aRows
          (indexByID_eq_fold hB) (indexByID_eq_fold hA) r hr
        exact ⟨this.1, fun b hb => by rw [hid, hid]; exact this.2 b hb⟩
      · intro r hr
        have := diff_added_spec (f := idKeyOf) aRows bRows
          (indexByID_eq_fold hA) (indexByID_eq_fold hB) r hr
        exact ⟨this.1, fun a ha => by rw [hid, hid]; exact this.2 a ha⟩
      · intro p hp
        have := diff_modified_spec (f := idKeyOf) bRows aRows
          (indexByID_eq_fold hB) (indexByID_eq_fold hA) p hp
        exact ⟨this.1, this.2.1, by rw [hid, hid]; exact this.2.2⟩
    | none =>
      have hmode : idModeFor bRows aRows = false := by
        rw [idModeFor, hB, hA]; rfl
      have hid : ∀ r : Row, rowIdent (idModeFor bRows aRows) r = hashRow r := by
        intro r; rw [hmode, rowIdent, if_neg (by simp)]
      rw [diffTable_eq_hash (Or.inr hA)]
      refine ⟨?_, ?_, ?_⟩
      · intro r hr
        have := diff_added_spec (f := hashRow) bRows aRows rfl rfl r hr
        exact ⟨this.1, fun b hb => by rw [hid, hid]; exact this.2 b hb⟩
      · intro r hr
        have := diff_added_spec (f := hashRow) aRows bRows rfl rfl r hr
        exact ⟨this.1, fun a ha => by rw [hid, hid]; exact this.2 a ha⟩
      · intro p hp
        simp at hp
  | none =>
    have hmode : idModeFor bRows aRows = false := by
      rw [idModeFor, hB]; rfl
    have hid : ∀ r : Row, rowIdent (idModeFor bRows aRows) r = hashRow r := by
      intro r; rw [hmode, rowIdent, if_neg (by simp)]
    rw [diffTable_eq_hash (Or.inl hB)]
    refine ⟨?_, ?_, ?_⟩
    · intro r hr
      have := diff_added_spec (f := hashRow) bRows aRows rfl rfl r hr
      exact ⟨this.1, fun b hb => by rw [hid, hid]; exact this.2 b hb⟩
    · intro r hr
      have := diff_added_spec (f := hashRow) aRows bRows rfl rfl r hr
      exact ⟨this.1, fun a ha => by rw [hid, hid]; exact this.2 a ha⟩
    · intro p hp
      simp at hp

/-- C3.  In every table of a computed diff: each added row appears in the
after rows and has no identity-match among the before rows (identity per
`id` when every row on both sides carries one, else per structural hash);
symmetrically each removed row appears in before and has no identity-match
in after; and each modified entry pairs a before row and an after row of the
same identity. -/
theorem claim_C3_diff_membership (before after : DBState)
    (entry : String × TableDiff) (hmem : entry ∈ ComputeDiff before after) :
    (∀ r ∈ entry.2.added, r ∈ lookupD after entry.1 ∧
      ∀ b ∈ lookupD before entry.1,
        rowIdent (idModeFor (lookupD before entry.1) (lookupD after entry.1)) b ≠
        rowIdent (idModeFor (lookupD before entry.1) (lookupD after entry.1)) r) ∧
    (∀ r ∈ entry.2.removed, r ∈ lookupD before entry.1 ∧
      ∀ a ∈ lookupD after entry.1,
        rowIdent (idModeFor (lookupD before entry.1) (lookupD after entry.1)) a ≠
        rowIdent (idModeFor (lookupD before entry.1) (lookupD after entry.1)) r) ∧
    (∀ p ∈ entry.2.modified, p.before ∈ lookupD before entry.1 ∧
      p.after ∈ lookupD after entry.1 ∧
      rowIdent (idModeFor (lookupD before entry.1) (lookupD after entry.1)) p.before =
      rowIdent (idModeFor (lookupD before entry.1) (lookupD after entry.1)) p.after) := by
  obtain ⟨t, _, hdef⟩ := List.mem_map.mp hmem
  rw [← hdef]
  exact diffTable_spec (lookupD before t) (lookupD after t)

/-- Witness for C3 on a concrete before/after pair with one added, one
removed and one modified row. -/
theorem claim_C3_diff_membership_witness :
    (("users", diffTable
        [[("id", V.vnum 1), ("name", V.vstr "Alice")], [("id", V.vnum 3)]]
        [[("id", V.vnum 1), ("name", V.vstr "Alicia")], [("id", V.vnum 2)]]) ∈
      ComputeDiff
        [("users", [[("id", V.vnum 1), ("name", V.vstr "Alice")], [("id", V.vnum 3)]])]
        [("users", [[("id", V.vnum 1), ("name", V.vstr "Alicia")], [("id", V.vnum 2)]])]) ∧
    (∀ r ∈ (diffTable
        [[("id", V.vnum 1), ("name", V.vstr "Alice")], [("id", V.vnum 3)]]
        [[("id", V.vnum 1), ("name", V.vstr "Alicia")], [("id", V.vnum 2)]]).added,
      r ∈ [[("id", V.vnum 1), ("name", V.vstr "Alicia")], [("id", V.vnum 2)]]) := by
  constructor
  · simp [ComputeDiff, keyUnion, lookupD, List.lookup]
  · intro r hr
    have h := claim_C3_diff_membership
      [("users", [[("id", V.vnum 1), ("name", V.vstr "Alice")], [("id", V.vnum 3)]])]
      [("users", [[("id", V.vnum 1), ("name", V.vstr "Alicia")], [("id", V.vnum 2)]])]
      ("users", diffTable
        [[("id", V.vnum 1), ("name", V.vstr "Alice")], [("id", V.vnum 3)]]
        [[("id", V.vnum 1), ("name", V.vstr "Alicia")], [("id", V.vnum 2)]])
      (by simp [ComputeDiff, keyUnion, lookupD, List.lookup])
    have := (h.1 r (by simpa using hr)).1
    simpa [lookupD, List.lookup] using this

/-! ## C10 — redaction never descends into sequences -/

theorem getPath_obj_cons (m : List (String × V)) (k : String) (rest : List String) :
    getPath (vobj m) (k :: rest) =
      match List.lookup k m with
      | some v => getPath v rest
      | none => none := rfl

theorem lookup_cons (k a : String) (v : α) (rest : List (String × α)) :
    List.lookup k ((a, v) :: rest) =
      if k = a then some v else List.lookup k rest := by
  by_cases h : k = a
  · simp [List.lookup, h]
  · simp [List.lookup, beq_eq_false_iff_ne.mpr h, h]

theorem redactLeafEntries_cons (a : String) (b : V) (tail : List (String × V))
    (p : String) :
    redactLeafEntries ((a, b) :: tail) p =
      (a, if a = p then vstr redactedValue else b) :: redactLeafEntries tail p := by
  by_cases h : a = p <;> simp [redactLeafEntries, h]

theorem redactPathEntries_cons (a : String) (b : V) (tail : List (String × V))
    (p : String) (rest : List String) :
    redactPathEntries ((a, b) :: tail) p rest =
      (a, if a = p then redactInBody b rest else b) ::
        redactPathEntries tail p rest := rfl

theorem redactFieldEntries_cons (a : String) (b : V) (tail : List (String × V))
    (f : String) :
    redactFieldEntries ((a, b) :: tail) f =
      (a, if a = f then vstr redactedValue else fieldStep f b) ::
        redactFieldEntries tail f := by
  cases b <;> rfl

theorem redactInBody_nil (b : V) : redactInBody b [] = b := by
  cases b <;> rfl

theorem lookup_redactLeafEntries (m : List (String × V)) (p k : String) :
    List.lookup k (redactLeafEntries m p) =
      (List.lookup k m).map fun v => if k = p then vstr redactedValue else v := by
  induction m with
  | nil => rfl
  | cons q tail ih =>
    rcases q with ⟨a, b⟩
    rw [redactLeafEntries_cons, lookup_cons, lookup_cons]
    by_cases hk : k = a
    · subst hk
      rw [if_pos rfl, if_pos rfl]
      rfl
    · rw [if_neg hk, if_neg hk]
      exact ih

theorem lookup_redactPathEntries (m : List (String × V)) (p : String)
    (rest : List String) (k : String) :
    List.lookup k (redactPathEntries m p rest) =
      (List.lookup k m).map fun v => if k = p then redactInBody v rest else v := by
  induction m with
  | nil => rfl
  | cons q tail ih =>
    rcases q with ⟨a, b⟩
    rw [redactPathEntries_cons, lookup_cons, lookup_cons]
    by_cases hk : k = a
    · subst hk
      rw [if_pos rfl, if_pos rfl]
      rfl
    · rw [if_neg hk, if_neg hk]
      exact ih

theorem lookup_redactFieldEntries (m : List (String × V)) (f k : String) :
    List.lookup k (redactFieldEntries m f) =
      (List.lookup k m).map fun v =>
        if k = f then vstr redactedValue else fieldStep f v := by
  induction m with
  | nil => rfl
  | cons q tail ih =>
    rcases q with ⟨a, b⟩
    rw [redactFieldEntries_cons, lookup_cons, lookup_cons]
    by_cases hk : k = a
    · subst hk
      rw [if_pos rfl, if_pos rfl]
      rfl
    · rw [if_neg hk, if_neg hk]
      exact ih

theorem redactFieldRecursive_arr (xs : List V) (f : String) :
    redactFieldRecursive (varr xs) f = varr xs := rfl

theorem redactInBody_arr (xs : List V) (path : List String) :
    redactInBody (varr xs) path = varr xs := by
  cases path with
  | nil => rfl
  | cons p rest => cases rest <;> rfl

theorem getPath_vstr_ne_arr {p : List String} {t : String} {xs : List V}
    (h : getPath (vstr t) p = some (varr xs)) : False := by
  cases p with
  | nil => simp [getPath] at h
  | cons k rest => simp [getPath] at h

theorem getPath_arr_redactField (f : String) :
    ∀ (p : List String) (b : V) (xs : List V),
      getPath (redactFieldRecursive b f) p = some (varr xs) →
      getPath b p = some (varr xs) := by
  intro p
  induction p with
  | nil =>
    intro b xs h
    rw [getPath] at h ⊢
    cases b with
    | vobj m =>
      rw [show redactFieldRecursive (vobj m) f = vobj (redactFieldEntries m f)
        from rfl] at h
      simp at h
    | vnull => exact h
    | vbool v => exact h
    | vnum v => exact h
    | vstr v => exact h
    | varr l => exact h
    | venc d e => exact h
  | cons k rest ih =>
    intro b xs h
    cases b with
    | vobj m =>
      rw [show redactFieldRecursive (vobj m) f = vobj (redactFieldEntries m f)
        from rfl, getPath_obj_cons, lookup_redactFieldEntries] at h
      rw [getPath_obj_cons]
      cases hl : List.lookup k m with
      | none => rw [hl] at h; simp at h
      | some v =>
        rw [hl] at h
        simp only [Option.map_some'] at h
        by_cases hk : k = f
        · rw [if_pos hk] at h
          exact absurd h (by intro hc; exact getPath_vstr_ne_arr hc)
        · rw [if_neg hk] at h
          cases v with
          | vobj m2 => exact ih (vobj m2) xs (by simpa [fieldStep] using h)
          | vnull => exact h
          | vbool w => exact h
          | vnum w => exact h
          | vstr w => exact h
          | varr l => exact h
          | venc d e => exact h
    | vnull => exact h
    | vbool v => exact h
    | vnum v => exact h
    | vstr v => exact h
    | varr l => exact h
    | venc d e => exact h

theorem getPath_arr_redactInBody :
    ∀ (p q : List String) (b : V) (xs : List V),
      getPath (redactInBody b q) p = some (varr xs) →
      getPath b p = some (varr xs) := by
  intro p
  induction p with
  | nil =>
    intro q b xs h
    rw [getPath] at h ⊢
    cases q with
    | nil =>
      rw [redactInBody_nil] at h
      exact h
    | cons s qr =>
      cases b with
      | vobj m =>
        cases qr with
        | nil => simp [redactInBody] at h
        | cons s2 t => simp [redactInBody] at h
      | vnull => exact h
      | vbool v => exact h
      | vnum v => exact h
      | vstr v => exact h
      | varr l => exact h
      | venc d e => exact h
  | cons k rest ih =>
    intro q b xs h
    cases q with
    | nil =>
      rw [redactInBody_nil] at h
      exact h
    | cons s qr =>
      cases b with
      | vobj m =>
        cases qr with
        | nil =>
          rw [show redactInBody (vobj m) [s] = vobj (redactLeafEntries m s)
            from rfl, getPath_obj_cons, lookup_redactLeafEntries] at h
          rw [getPath_obj_cons]
          cases hl : List.lookup k m with
          | none => rw [hl] at h; simp at h
          | some v =>
            rw [hl] at h
            simp only [Option.map_some'] at h
            by_cases hk : k = s
            · rw [if_pos hk] at h
              exact absurd h (by intro hc; exact getPath_vstr_ne_arr hc)
            · rw [if_neg hk] at h
              exact h
        | cons s2 t =>
          rw [show redactInBody (vobj m) (s :: s2 :: t) =
            vobj (redactPathEntries m s (s2 :: t)) from rfl,
            getPath_obj_cons, lookup_redactPathEntries] at h
          rw [getPath_obj_cons]
          cases hl : List.lookup k m with
          | none => rw [hl] at h; simp at h
          | some v =>
            rw [hl] at h
            simp only [Option.map_some'] at h
            by_cases hk : k = s
            · rw [if_pos hk] at h
              exact ih (s2 :: t) v xs h
            · rw [if_neg hk] at h
              exact h
      | vnull => exact h
      | vbool v => exact h
      | vnum v => exact h
      | vstr v => exact h
      | varr l => exact h
      | venc d e => exact h

theorem getPath_redactField_frame (f : String) :
    ∀ (p : List String) (b v : V), f ∉ p → getPath b p = some v →
      v.isObj = false → getPath (redactFieldRecursive b f) p = some v := by
  intro p
  induction p with
  | nil =>
    intro b v _ h hobj
    rw [getPath] at h ⊢
    have hb : b = v := Option.some.inj h
    subst hb
    cases b with
    | vobj m => simp [V.isObj] at hobj
    | vnull => exact h
    | vbool w => exact h
    | vnum w => exact h
    | vstr w => exact h
    | varr l => exact h
    | venc d e => exact h
  | cons k rest ih =>
    intro b v hf h hobj
    have hkf : k ≠ f := fun he => hf (he ▸ List.mem_cons_self k rest)
    have hfr : f ∉ rest := fun he => hf (List.mem_cons_of_mem _ he)
    cases b with
    | vobj m =>
      rw [getPath_obj_cons] at h
      rw [show redactFieldRecursive (vobj m) f = vobj (redactFieldEntries m f)
        from rfl, getPath_obj_cons, lookup_redactFieldEntries]
      cases hl : List.lookup k m with
      | none => rw [hl] at h; simp at h
      | some w =>
        rw [hl] at h
        simp only [Option.map_some']
        rw [if_neg (fun he => hkf he)]
        cases w with
        | vobj m2 => exact ih (vobj m2) v hfr h hobj
        | vnull => exact h
        | vbool x => exact h
        | vnum x => exact h
        | vstr x => exact h
        | varr l => exact h
        | venc d e => exact h
    | vnull => exact h
    | vbool w => exact h
    | vnum w => exact h
    | vstr w => exact h
    | varr l => exact h
    | venc d e => exact h

theorem getPath_redactInBody_frame :
    ∀ (p q : List String) (b v : V), ¬ q <+: p → getPath b p = some v →
      v.isObj = false → getPath (redactInBody b q) p = some v := by
  intro p
  induction p with
  | nil =>
    intro q b v hq h hobj
    cases q with
    | nil => exact absurd (List.nil_prefix) hq
    | cons s qr =>
      rw [getPath] at h ⊢
      have hb : b = v := Option.some.inj h
      subst hb
      cases b with
      | vobj m => simp [V.isObj] at hobj
      | vnull => exact h
      | vbool w => exact h
      | vnum w => exact h
      | vstr w => exact h
      | varr l => rw [redactInBody_arr]
      | venc d e => cases qr <;> exact h
  | cons k rest ih =>
    intro q b v hq h hobj
    cases q with
    | nil => exact absurd (List.nil_prefix) hq
    | cons s qr =>
      cases b with
      | vobj m =>
        rw [getPath_obj_cons] at h
        cases hl : List.lookup k m with
        | none => rw [hl] at h; simp at h
        | some w =>
          rw [hl] at h
          cases qr with
          | nil =>
            rw [show redactInBody (vobj m) [s] = vobj (redactLeafEntries m s)
              from rfl, getPath_obj_cons, lookup_redactLeafEntries, hl]
            simp only [Option.map_some']
            have hks : k ≠ s := by
              intro he
              exact hq (by rw [he]; exact ⟨rest, rfl⟩)
            rw [if_neg hks]
            exact h
          | cons s2 t =>
            rw [show redactInBody (vobj m) (s :: s2 :: t) =
              vobj (redactPathEntries m s (s2 :: t)) from rfl,
              getPath_obj_cons, lookup_redactPathEntries, hl]
            simp only [Option.map_some']
            by_cases hks : k = s
            · rw [if_pos hks]
              have hqr : ¬ (s2 :: t) <+: rest := by
                intro hpre
                exact hq (by rw [hks]; exact List.cons_prefix_cons.mpr ⟨rfl, hpre⟩)
              exact ih (s2 :: t) w v hqr h hobj
            · rw [if_neg hks]
              exact h
      | vnull => exact h
      | vbool w => exact h
      | vnum w => exact h
      | vstr w => exact h
      | varr l =>
        rw [redactInBody_arr]
        exact h
      | venc d e => cases qr <;> exact h

/-- C10.  Redaction only traverses mapping values and never descends into
sequences: arrays are returned untouched by both redaction kernels; any array
reachable in the redacted body at some key path already sat verbatim (with
all its elements) at that path in the original, so a field inside an array
element is never rewritten; and any non-mapping value at a key path not
named by the redaction (not containing the wildcard field, resp. not
extending the dotted path) is unchanged. -/
theorem claim_C10_redaction_frame :
    (∀ (xs : List V) (f : String), redactFieldRecursive (V.varr xs) f = V.varr xs) ∧
    (∀ (xs : List V) (path : List String), redactInBody (V.varr xs) path = V.varr xs) ∧
    (∀ (f : String) (p : List String) (b : V) (xs : List V),
      getPath (redactFieldRecursive b f) p = some (V.varr xs) →
      getPath b p = some (V.varr xs)) ∧
    (∀ (p q : List String) (b : V) (xs : List V),
      getPath (redactInBody b q) p = some (V.varr xs) →
      getPath b p = some (V.varr xs)) ∧
    (∀ (f : String) (p : List String) (b v : V), f ∉ p → getPath b p = some v →
      v.isObj = false → getPath (redactFieldRecursive b f) p = some v) ∧
    (∀ (p q : List String) (b v : V), ¬ q <+: p → getPath b p = some v →
      v.isObj = false → getPath (redactInBody b q) p = some v) :=
  ⟨fun xs f => redactFieldRecursive_arr xs f,
   fun xs path => redactInBody_arr xs path,
   fun f p b xs h => getPath_arr_redactField f p b xs h,
   fun p q b xs h => getPath_arr_redactInBody p q b xs h,
   fun f p b v hf h hobj => getPath_redactField_frame f p b v hf h hobj,
   fun p q b v hq h hobj => getPath_redactInBody_frame p q b v hq h hobj⟩

/-- Witness for C10 at a concrete body holding an object inside an array:
the wildcard redaction of `password` leaves the array element untouched and
the sibling field intact. -/
theorem claim_C10_redaction_frame_witness :
    redactFieldRecursive
      (vobj [("list", varr [vobj [("password", vstr "s")]]), ("name", vstr "A")])
      "password" =
    vobj [("list", varr [vobj [("password", vstr "s")]]), ("name", vstr "A")] ∧
    getPath (vobj [("list", varr [vobj [("password", vstr "s")]]),
      ("name", vstr "A")]) ["list"] = some (varr [vobj [("password", vstr "s")]]) ∧
    getPath (redactInBody (vobj [("a", vobj [("b", vstr "x"), ("c", vstr "y")])])
      ["a", "b"]) ["a", "c"] = some (vstr "y") := by
  refine ⟨rfl, ?_, ?_⟩
  · exact (claim_C10_redaction_frame.2.2.1) "password" ["list"]
      (redactFieldRecursive
        (vobj [("list", varr [vobj [("password", vstr "s")]]), ("name", vstr "A")])
        "password") [vobj [("password", vstr "s")]] rfl
  · exact (claim_C10_redaction_frame.2.2.2.2.2) ["a", "c"] ["a", "b"]
      (vobj [("a", vobj [("b", vstr "x"), ("c", vstr "y")])]) (vstr "y")
      (by decide) rfl rfl

/-! ## C2 — store round-trip -/

mutual

theorem marshalV_nf : ∀ v, isNF v = true → marshalV v = v
  | vnull, _ => rfl
  | vbool _, _ => rfl
  | vnum _, _ => rfl
  | vstr _, _ => rfl
  | varr l, h => by
    have h2 : isNFList l = true := h
    show varr (marshalVList l) = varr l
    rw [marshalVList_nf l h2]
  | vobj m, h => by
    have h2 : isNFEntries m = true := h
    show vobj (marshalVEntries m) = vobj m
    rw [marshalVEntries_nf m h2]
  | venc _ _, h => nomatch h

theorem marshalVList_nf : ∀ l, isNFList l = true → marshalVList l = l
  | [], _ => rfl
  | x :: xs, h => by
    have h2 : (isNF x && isNFList xs) = true := h
    rw [Bool.and_eq_true] at h2
    show marshalV x :: marshalVList xs = x :: xs
    rw [marshalV_nf x h2.1, marshalVList_nf xs h2.2]

theorem marshalVEntries_nf : ∀ m, isNFEntries m = true → marshalVEntries m = m
  | [], _ => rfl
  | (k, v) :: rest, h => by
    have h2 : (isNF v && isNFEntries rest) = true := h
    rw [Bool.and_eq_true] at h2
    show (k, marshalV v) :: marshalVEntries rest = (k, v) :: rest
    rw [marshalV_nf v h2.1, marshalVEntries_nf rest h2.2]

end

theorem isNull_eq_vnull {v : V} (h : v.isNull = true) : v = vnull := by
  cases v <;> first | rfl | exact nomatch h

theorem map_marshalV_id (m : List (String × V)) (h : isNFEntries m = true) :
    (m.map fun p => (p.1, marshalV p.2)) = m := by
  induction m with
  | nil => rfl
  | cons q rest ih =>
    rcases q with ⟨k, v⟩
    have h2 : (isNF v && isNFEntries rest) = true := h
    rw [Bool.and_eq_true] at h2
    rw [List.map_cons, marshalV_nf v h2.1, ih h2.2]

theorem optMapM_map_id {f : β → Option α} {g : α → β} :
    ∀ (l : List α), (∀ a ∈ l, f (g a) = some a) → optMapM f (l.map g) = some l := by
  intro l
  induction l with
  | nil => intro _; rfl
  | cons x xs ih =>
    intro h
    rw [List.map_cons, optMapM, h x (List.mem_cons_self x xs),
      ih fun a ha => h a (List.mem_cons_of_mem _ ha)]
    rfl

theorem decodeHeaders_marshal (h : List (String × String)) :
    decodeHeaders (some (marshalHeaders h)) = some h := by
  show optMapM _ (h.map fun p => (p.1, vstr p.2)) = some h
  exact optMapM_map_id h fun a _ => rfl

theorem decodeRow_marshalRow (r : Row) (h : rowNF r = true) :
    decodeRow (marshalRow r) = some r := by
  show some (r.map fun p => (p.1, marshalV p.2)) = some r
  rw [map_marshalV_id r h]

theorem decodeRows_marshalRows (rs : List Row) (h : rowsNF rs = true) :
    decodeRows (marshalRows rs) = some rs := by
  show optMapM decodeRow (rs.map marshalRow) = some rs
  exact optMapM_map_id rs fun a ha =>
    decodeRow_marshalRow a (List.all_eq_true.mp h a ha)

theorem decodeDBState_marshal (st : DBState) (h : dbStateNF st = true) :
    decodeDBState (some (marshalDBState st)) = some st := by
  show optMapM _ (st.map fun p => (p.1, marshalRows p.2)) = some st
  refine optMapM_map_id st fun a ha => ?_
  show (decodeRows (marshalRows a.2)).map (fun rs => (a.1, rs)) = some a
  rw [decodeRows_marshalRows a.2 (List.all_eq_true.mp h a ha)]
  rfl

theorem decodeStrList_marshal (tags : List String) :
    decodeStrList (some (varr (tags.map vstr))) = some tags := by
  show optMapM _ (tags.map vstr) = some tags
  exact optMapM_map_id tags fun a _ => rfl

theorem decodeRequest_marshal (r : Request) (h : isNF r.body = true) :
    decodeRequest (some (marshalRequest r)) = some r := by
  obtain ⟨method, url, headers, body⟩ := r
  rw [marshalRequest]
  by_cases hh : List.isEmpty headers <;> by_cases hb : V.isNull body
  · have he := List.isEmpty_iff.mp hh
    have hv := isNull_eq_vnull hb
    subst he
    subst hv
    rfl
  · have he := List.isEmpty_iff.mp hh
    subst he
    simp only [optF, hh, hb, if_true, if_false, List.nil_append, List.cons_append,
      List.append_nil]
    simp [decodeRequest, lookup_cons, decodeStr, decodeHeaders, decodeBodyF,
      marshalV_nf body h]
  · have hv := isNull_eq_vnull hb
    subst hv
    simp only [optF, hh, hb, if_true, if_false, List.nil_append, List.cons_append,
      List.append_nil]
    simp [decodeRequest, lookup_cons, decodeStr, decodeBodyF,
      decodeHeaders_marshal headers]
  · simp only [optF, hh, hb, if_true, if_false, List.nil_append, List.cons_append,
      List.append_nil]
    simp [decodeRequest, lookup_cons, decodeStr, decodeBodyF,
      decodeHeaders_marshal headers, marshalV_nf body h]

theorem decodeResponse_marshal (r : Response) (h : isNF r.body = true) :
    decodeResponse (some (marshalResponse r)) = some r := by
  obtain ⟨status, headers, body⟩ := r
  rw [marshalResponse]
  by_cases hh : List.isEmpty headers <;> by_cases hb : V.isNull body
  · have he := List.isEmpty_iff.mp hh
    have hv := isNull_eq_vnull hb
    subst he
    subst hv
    rfl
  · have he := List.isEmpty_iff.mp hh
    subst he
    simp only [optF, hh, hb, if_true, if_false, List.nil_append, List.cons_append,
      List.append_nil]
    simp [decodeResponse, lookup_cons, decodeInt, decodeHeaders, decodeBodyF,
      marshalV_nf body h]
  · have hv := isNull_eq_vnull hb
    subst hv
    simp only [optF, hh, hb, if_true, if_false, List.nil_append, List.cons_append,
      List.append_nil]
    simp [decodeResponse, lookup_cons, decodeInt, decodeBodyF,
      decodeHeaders_marshal headers]
  · simp only [optF, hh, hb, if_true, if_false, List.nil_append, List.cons_append,
      List.append_nil]
    simp [decodeResponse, lookup_cons, decodeInt, decodeBodyF,
      decodeHeaders_marshal headers, marshalV_nf body h]

theorem decodeOutgoing_marshal (o : OutgoingRequest) (hb : isNF o.body = true)
    (hr : ∀ resp, o.response = some resp → isNF resp.body = true) :
    decodeOutgoing (marshalOutgoing o) = some o := by
  obtain ⟨method, url, headers, body, response⟩ := o
  cases response with
  | none =>
    simp only [marshalOutgoing]
    by_cases hh : List.isEmpty headers <;> by_cases hbn : V.isNull body
    · have he := List.isEmpty_iff.mp hh
      have hv := isNull_eq_vnull hbn
      subst he
      subst hv
      rfl
    · have he := List.isEmpty_iff.mp hh
      subst he
      simp only [optF, hh, hbn, if_true, if_false, List.nil_append,
        List.cons_append, List.append_nil]
      simp [decodeOutgoing, lookup_cons, decodeStr, decodeHeaders, decodeBodyF,
        marshalV_nf body hb]
    · have hv := isNull_eq_vnull hbn
      subst hv
      simp only [optF, hh, hbn, if_true, if_false, List.nil_append,
        List.cons_append, List.append_nil]
      simp [decodeOutgoing, lookup_cons, decodeStr, decodeBodyF,
        decodeHeaders_marshal headers]
    · simp only [optF, hh, hbn, if_true, if_false, List.nil_append,
        List.cons_append, List.append_nil]
      simp [decodeOutgoing, lookup_cons, decodeStr, decodeBodyF,
        decodeHeaders_marshal headers, marshalV_nf body hb]
  | some resp =>
    obtain ⟨ents, hents⟩ : ∃ ents, marshalResponse resp = vobj ents :=
      ⟨_, by rw [marshalResponse]⟩
    have hresp : decodeResponse (some (vobj ents)) = some resp := by
      rw [← hents]
      exact decodeResponse_marshal resp (hr resp rfl)
    simp only [marshalOutgoing]
    rw [hents]
    by_cases hh : List.isEmpty headers <;> by_cases hbn : V.isNull body
    · have he := List.isEmpty_iff.mp hh
      have hv := isNull_eq_vnull hbn
      subst he
      subst hv
      simp only [optF, V.isNull, List.isEmpty_nil, if_true, List.nil_append,
        List.cons_append, List.append_nil]
      simp [decodeOutgoing, lookup_cons, decodeStr, decodeHeaders, decodeBodyF, hresp]
    · have he := List.isEmpty_iff.mp hh
      subst he
      simp only [optF, hh, hbn, if_true, if_false, List.nil_append,
        List.cons_append, List.append_nil]
      simp [decodeOutgoing, lookup_cons, decodeStr, decodeHeaders, decodeBodyF,
        marshalV_nf body hb, hresp]
    · have hv := isNull_eq_vnull hbn
      subst hv
      simp only [optF, hh, hbn, if_true, if_false, List.nil_append,
        List.cons_append, List.append_nil]
      simp [decodeOutgoing, lookup_cons, decodeStr, decodeBodyF,
        decodeHeaders_marshal headers, hresp]
    · simp only [optF, hh, hbn, if_true, if_false, List.nil_append,
        List.cons_append, List.append_nil]
      simp [decodeOutgoing, lookup_cons, decodeStr, decodeBodyF,
        decodeHeaders_marshal headers, marshalV_nf body hb, hresp]

theorem decodeOutgoingList_marshal (outs : List OutgoingRequest)
    (h : ∀ o ∈ outs, isNF o.body = true ∧
      ∀ resp, o.response = some resp → isNF resp.body = true) :
    decodeOutgoingList (some (varr (outs.map marshalOutgoing))) = some outs := by
  show optMapM decodeOutgoing (outs.map marshalOutgoing) = some outs
  exact optMapM_map_id outs fun a ha =>
    decodeOutgoing_marshal a (h a ha).1 (h a ha).2

theorem decodeModifiedRow_marshal (m : ModifiedRow) (hb : rowNF m.before = true)
    (ha : rowNF m.after = true) :
    decodeModifiedRow (marshalModifiedRow m) = some m := by
  obtain ⟨b, a⟩ := m
  rw [marshalModifiedRow]
  simp [decodeModifiedRow, lookup_cons, decodeRow_marshalRow b hb,
    decodeRow_marshalRow a ha]

theorem decodeTableDiff_marshal (d : TableDiff) (h : tableDiffNF d = true) :
    decodeTableDiff (marshalTableDiff d) = some d := by
  obtain ⟨added, removed, modified⟩ := d
  rw [tableDiffNF, Bool.and_eq_true, Bool.and_eq_true] at h
  obtain ⟨⟨hadd, hrem⟩, hmod⟩ := h
  rw [marshalTableDiff]
  have h1 : decodeRowsF (some (varr (added.map marshalRow))) = some added :=
    decodeRows_marshalRows added hadd
  have h2 : decodeRowsF (some (varr (removed.map marshalRow))) = some removed :=
    decodeRows_marshalRows removed hrem
  have h3 : optMapM decodeModifiedRow (modified.map marshalModifiedRow) =
      some modified := by
    refine optMapM_map_id modified fun a ha => ?_
    have := List.all_eq_true.mp hmod a ha
    rw [Bool.and_eq_true] at this
    exact decodeModifiedRow_marshal a this.1 this.2
  simp [decodeTableDiff, lookup_cons, h1, h2, h3]

theorem decodeDBDiff_marshal (l : List (String × TableDiff))
    (h : ∀ p ∈ l, tableDiffNF p.2 = true) :
    decodeDBDiff (some (marshalDBDiff l)) = some l := by
  show optMapM _ (l.map fun p => (p.1, marshalTableDiff p.2)) = some l
  refine optMapM_map_id l fun a ha => ?_
  show (decodeTableDiff (marshalTableDiff a.2)).map (fun d => (a.1, d)) = some a
  rw [decodeTableDiff_marshal a.2 (h a ha)]
  rfl

/-- C2.  `Store.Load` undoes `Store.Save` at the serialization layer: for
every snapshot in on-disk form (JSON-normal dynamic values — the form every
loaded snapshot and every stored `\x7bdata, encoding\x7d` binary-body record
has), decoding the marshaled tree restores the snapshot in every field,
including nested binary bodies and empty collections (an empty tags list and
empty DB-state row sequences round-trip to themselves). -/
theorem claim_C2_store_roundtrip (s : Snapshot) (h : snapshotNF s = true) :
    unmarshalSnapshot (marshalSnapshot s) = some s := by
  obtain ⟨id, ts, svc, tags, before, req, outs, resp, after, diff⟩ := s
  rw [snapshotNF] at h
  simp only [Bool.and_eq_true] at h
  obtain ⟨⟨⟨⟨⟨hreq, hresp⟩, houts⟩, hbefore⟩, hafter⟩, hdiff⟩ := h
  have hb : decodeDBState (some (marshalDBState before)) = some before :=
    decodeDBState_marshal before hbefore
  have ha : decodeDBState (some (marshalDBState after)) = some after :=
    decodeDBState_marshal after hafter
  have hrq : decodeRequest (some (marshalRequest req)) = some req :=
    decodeRequest_marshal req hreq
  have hrs : decodeResponse (some (marshalResponse resp)) = some resp :=
    decodeResponse_marshal resp hresp
  have hdd : decodeDBDiff (some (marshalDBDiff diff)) = some diff := by
    refine decodeDBDiff_marshal diff fun p hp => ?_
    exact List.all_eq_true.mp hdiff p hp
  have hol : decodeOutgoingList (some (varr (outs.map marshalOutgoing))) =
      some outs := by
    refine decodeOutgoingList_marshal outs fun o ho => ?_
    have := List.all_eq_true.mp houts o ho
    rw [Bool.and_eq_true] at this
    refine ⟨this.1, fun r hr => ?_⟩
    have h2 := this.2
    rw [hr] at h2
    exact h2
  rw [marshalSnapshot]
  by_cases htags : List.isEmpty tags <;> by_cases hout : List.isEmpty outs
  · have h1 := List.isEmpty_iff.mp htags
    have h2 := List.isEmpty_iff.mp hout
    subst h1
    subst h2
    simp only [optF, if_true, List.nil_append, List.cons_append, List.append_nil,
      List.isEmpty_nil]
    simp [unmarshalSnapshot, vget, lookup_cons, decodeStr, decodeStrList,
      decodeOutgoingList, hb, ha, hrq, hrs, hdd]
  · have h1 := List.isEmpty_iff.mp htags
    subst h1
    simp only [optF, htags, hout, if_true, if_false, List.nil_append,
      List.cons_append, List.append_nil, List.isEmpty_nil]
    simp [unmarshalSnapshot, vget, lookup_cons, decodeStr, decodeStrList,
      hb, ha, hrq, hrs, hdd, hol]
  · have h2 := List.isEmpty_iff.mp hout
    subst h2
    simp only [optF, htags, hout, if_true, if_false, List.nil_append,
      List.cons_append, List.append_nil, List.isEmpty_nil]
    simp [unmarshalSnapshot, vget, lookup_cons, decodeStr, decodeOutgoingList,
      decodeStrList_marshal tags, hb, ha, hrq, hrs, hdd]
  · simp only [optF, htags, hout, if_true, if_false, List.nil_append,
      List.cons_append, List.append_nil]
    simp [unmarshalSnapshot, vget, lookup_cons, decodeStr,
      decodeStrList_marshal tags, hb, ha, hrq, hrs, hdd, hol]

/-- Witness for C2 at a concrete snapshot carrying a binary-body record, an
empty tags list and an empty DB-state row sequence. -/
theorem claim_C2_store_roundtrip_witness :
    snapshotNF
      ⟨"test123", "2026-02-07T14:30:00Z", "my-api", [],
       [("users", [[("id", vnum 1), ("name", vstr "Alice")]]), ("empty", [])],
       ⟨"POST", "/users", [("Content-Type", "application/json")],
        vobj [("data", vstr "AQID"), ("encoding", vstr "base64")]⟩,
       [], ⟨201, [], vobj [("id", vnum 2)]⟩,
       [("users", [])],
       [("users", ⟨[[("id", vnum 2)]], [], []⟩)]⟩ = true ∧
    unmarshalSnapshot (marshalSnapshot
      ⟨"test123", "2026-02-07T14:30:00Z", "my-api", [],
       [("users", [[("id", vnum 1), ("name", vstr "Alice")]]), ("empty", [])],
       ⟨"POST", "/users", [("Content-Type", "application/json")],
        vobj [("data", vstr "AQID"), ("encoding", vstr "base64")]⟩,
       [], ⟨201, [], vobj [("id", vnum 2)]⟩,
       [("users", [])],
       [("users", ⟨[[("id", vnum 2)]], [], []⟩)]⟩) =
    some
      ⟨"test123", "2026-02-07T14:30:00Z", "my-api", [],
       [("users", [[("id", vnum 1), ("name", vstr "Alice")]]), ("empty", [])],
       ⟨"POST", "/users", [("Content-Type", "application/json")],
        vobj [("data", vstr "AQID"), ("encoding", vstr "base64")]⟩,
       [], ⟨201, [], vobj [("id", vnum 2)]⟩,
       [("users", [])],
       [("users", ⟨[[("id", vnum 2)]], [], []⟩)]⟩ :=
  ⟨rfl, claim_C2_store_roundtrip _ rfl⟩

end SnapshotTester
